import Mathlib

/-!
# snickers REST layer: route table and dispatch

A shallow embedding of `rest/routes.go` (the `Route` record, the `routes` table and
`NewRouter`) together with the part of the gorilla/mux router that `NewRouter` drives:
path templates with `{name}` placeholders, the method matcher, `StrictSlash`, path cleaning
and first-match dispatch. Request paths are lists of characters. `routes.go` does not fix a
mux release, and the releases differ in how they answer a request whose path matches under
another method only, so the router takes the release as a parameter.

The handlers named by the table, `HTTPError` and the storage live in files that are not
embedded here; they are modelled from the specification, with the JSON codec and the text
of a redirect as parameters, and put behind the router to state what a request does end to
end.
-/

set_option autoImplicit false

namespace Snickers

/-- The eight handler functions that `routes.go` refers to by name. -/
inductive Handler where
  | Index
  | CreatePreset
  | UpdatePreset
  | ListPresets
  | GetPresetDetails
  | CreateJob
  | ListJobs
  | GetJobDetails
  deriving DecidableEq, Repr

/-- The record `type Route struct { Method; Pattern; HandlerFunc }`. -/
structure Route where
  Method : String
  Pattern : String
  HandlerFunc : Handler
  deriving DecidableEq, Repr

/-- The slice type `type Routes []Route`. -/
abbrev Routes := List Route

/-- The table `var routes = Routes{...}` of `routes.go`, in source order. -/
def routes : Routes :=
  [ ⟨"GET", "/", Handler.Index⟩,
    ⟨"POST", "/presets", Handler.CreatePreset⟩,
    ⟨"PUT", "/presets", Handler.UpdatePreset⟩,
    ⟨"GET", "/presets", Handler.ListPresets⟩,
    ⟨"GET", "/presets/{presetName}", Handler.GetPresetDetails⟩,
    ⟨"POST", "/jobs", Handler.CreateJob⟩,
    ⟨"GET", "/jobs", Handler.ListJobs⟩,
    ⟨"GET", "/jobs/{jobId}", Handler.GetJobDetails⟩ ]

/-! ## The gorilla/mux router used by `NewRouter` -/

namespace mux

/-- A piece of a parsed path template: literal text, or a `{name}` placeholder, which mux
compiles to the group `(?P<name>[^/]+)`. -/
inductive Piece where
  | lit (raw : List Char)
  | var (name : String)
  deriving DecidableEq, Repr

/-- Template scanner (mux `braceIndices` plus the loop of `newRouteRegexp`): `lit` is the
literal read so far (reversed), `cur` is `some v` while inside a placeholder whose name read
so far is `v` (reversed).  Unbalanced braces are an error, as in mux; a placeholder with its
own pattern (`{name:regexp}`) is outside this model and is rejected too. -/
def parseAux : List Char → List Char → Option (List Char) → Option (List Piece)
  | [], lit, none => some [Piece.lit lit.reverse]
  | [], _, some _ => none
  | c :: cs, lit, none =>
      if c = '{' then (parseAux cs [] (some [])).map (fun ps => Piece.lit lit.reverse :: ps)
      else if c = '}' then none
      else parseAux cs (c :: lit) none
  | c :: cs, _, some v =>
      if c = '}' then (parseAux cs [] none).map (fun ps => Piece.var (String.mk v.reverse) :: ps)
      else if c = '{' ∨ c = ':' then none
      else parseAux cs [] (some (c :: v))

/-- The compiled path matcher of a route (mux `routeRegexp`, path case). -/
structure routeRegexp where
  template : String
  strictSlash : Bool
  pieces : List Piece
  deriving DecidableEq, Repr

/-- Go `strings.HasSuffix(s, "/")` on a character list. -/
def hasSlashSuffix (s : List Char) : Bool :=
  s.getLast? = some '/'

/-- Function `newRouteRegexp` for a path template: with `strictSlash` a trailing `/` of the
template is dropped before compiling (the compiled expression then ends in `[/]?$`). -/
def newRouteRegexp (tpl : String) (strictSlash : Bool) : Option routeRegexp :=
  let t := if strictSlash && hasSlashSuffix tpl.toList then tpl.toList.dropLast else tpl.toList
  (parseAux t [] none).map (fun ps => ⟨tpl, strictSlash, ps⟩)

/-- Backtracking match of `[^/]+` followed by the continuation `cont`: one character other
than `/` is consumed, then a longer match is tried first (the operator is greedy). `acc` is
the text consumed so far, reversed. -/
def plusNotSlash {β : Type} (cont : List Char → List Char → Option β) :
    List Char → List Char → Option β
  | _, [] => none
  | acc, c :: cs =>
      if c = '/' then none
      else (plusNotSlash cont (c :: acc) cs).orElse (fun _ => cont (c :: acc).reverse cs)

/-- Match of the compiled expression `^ pieces ([/]?)? $` against a path, returning the
placeholder bindings in template order. -/
def matchPieces (strictSlash : Bool) : List Piece → List Char → Option (List (String × List Char))
  | [], s => if s = [] ∨ (strictSlash = true ∧ s = ['/']) then some [] else none
  | Piece.lit raw :: ps, s =>
      if raw.isPrefixOf s then matchPieces strictSlash ps (s.drop raw.length) else none
  | Piece.var n :: ps, s =>
      plusNotSlash (fun v rest => (matchPieces strictSlash ps rest).map (fun vs => (n, v) :: vs)) [] s

/-- Matching a path against a compiled route expression. -/
def routeRegexp.Match (re : routeRegexp) (path : List Char) : Option (List (String × List Char)) :=
  matchPieces re.strictSlash re.pieces path

/-- A mux route: the methods of its method matcher (none: any method), its path expression,
its handler and the build error flag. -/
structure Route where
  strictSlash : Bool
  methods : Option (List String)
  regexp : Option routeRegexp
  handler : Option Handler
  err : Bool
  deriving DecidableEq, Repr

/-- The mux router: the `StrictSlash` flag and the registered routes in order. -/
structure Router where
  strictSlash : Bool
  routes : List Route
  deriving DecidableEq, Repr

/-- Function `mux.NewRouter()`. -/
def NewRouter : Router := ⟨false, []⟩

/-- Method `Router.StrictSlash(value)`. -/
def Router.StrictSlash (r : Router) (value : Bool) : Router := { r with strictSlash := value }

/-- Method `Router.NewRoute()`: a fresh route inheriting the router's `strictSlash`. -/
def Router.NewRoute (r : Router) : Route := ⟨r.strictSlash, none, none, none, false⟩

/-- Go `strings.ToUpper` on a method name; letters outside ASCII are left as they are (no
method name of the table has one). -/
def ToUpper (s : String) : String :=
  String.mk (s.toList.map Char.toUpper)

/-- Method `Route.Methods(m)`: adds a method matcher (mux upper-cases the names). -/
def Route.Methods (r : Route) (m : String) : Route := { r with methods := some [ToUpper m] }

/-- Method `Route.Path(tpl)`: adds the path matcher compiled from the template. -/
def Route.Path (r : Route) (tpl : String) : Route :=
  match newRouteRegexp tpl r.strictSlash with
  | some re => { r with regexp := some re }
  | none => { r with err := true }

/-- Method `Route.Handler(h)`. -/
def Route.Handler (r : Route) (h : Handler) : Route := { r with handler := some h }

/-- What the router does with a request. -/
inductive Outcome where
  /-- The handler is invoked with the placeholder bindings. -/
  | serve (h : Handler) (vars : List (String × List Char))
  /-- Status 301 with a `Location` whose path is `path`. -/
  | movedPermanently (path : List Char)
  /-- The handler `http.NotFoundHandler()`: status 404. -/
  | notFound
  /-- The method-not-allowed handler of mux 1.6.1 and later: status 405. -/
  | methodNotAllowed
  deriving DecidableEq, Repr

/-- The gorilla/mux release linked into the build; `routes.go` imports the library without
fixing one. The releases differ in what they do with a route whose path matcher accepts a
request that its method matcher rejects. -/
inductive Version where
  /-- Before 1.6.1 (the router this code was written against): nothing is recorded. -/
  | before_1_6_1
  /-- From 1.6.1 up to 1.8.0: the route records `ErrMethodMismatch`, and the record stays
  until a route matches the request. -/
  | from_1_6_1
  /-- Release 1.8.1: as before, and the record is dropped again whenever a matcher of a later
  route accepts the request. -/
  | from_1_8_1
  deriving DecidableEq, Repr

/-- Method `Route.Match`: every matcher must accept the request; the result is the route's
handler, except that with `strictSlash` a path whose trailing slash differs from the
template's is answered by a redirect to the path with the slash removed or added. -/
def Route.Match (r : Route) (method : String) (path : List Char) : Option Outcome :=
  if r.err then none
  else if (match r.methods with | some ms => decide (method ∈ ms) | none => true) = false then none
  else
    match r.regexp with
    | none =>
        match r.handler with
        | some h => some (Outcome.serve h [])
        | none => some Outcome.notFound
    | some re =>
        match re.Match path with
        | none => none
        | some vars =>
            if re.strictSlash && (hasSlashSuffix path != hasSlashSuffix re.template.toList) then
              some (Outcome.movedPermanently
                (if hasSlashSuffix path then path.dropLast else path ++ ['/']))
            else
              match r.handler with
              | some h => some (Outcome.serve h vars)
              | none => some Outcome.notFound

/-- Method `Router.Match`: the first registered route that matches decides. -/
def Router.Match (r : Router) (method : String) (path : List Char) : Option Outcome :=
  r.routes.findSome? (fun rt => rt.Match method path)

/-- The field `match.MatchErr` after `Route.Match` has run on a route that does not match
the request: `e` says whether `ErrMethodMismatch` was recorded before, the result whether
it is recorded afterwards. The matchers run in the order method, path; a failing method
matcher lets the path matcher run, a failing path matcher ends the route. From 1.6.1 on a
route whose path matcher accepts after its method matcher failed records the mismatch; in
1.8.1 every accepting matcher first drops an earlier record. -/
def Route.matchErr (v : Version) (r : Route) (method : String) (path : List Char) (e : Bool) :
    Bool :=
  if r.err then e
  else
    let methodOK := match r.methods with
      | some ms => decide (method ∈ ms)
      | none => true
    let pathOK := match r.regexp with
      | some re => (re.Match path).isSome
      | none => true
    match v with
    | Version.before_1_6_1 => false
    | Version.from_1_6_1 => if !methodOK && pathOK then true else e
    | Version.from_1_8_1 =>
        let e1 := if r.methods.isSome && methodOK then false else e
        if !pathOK then e1
        else if !methodOK then true
        else if r.regexp.isSome then false else e1

/-- Whether `ErrMethodMismatch` is recorded once every route has been tried without a
match. -/
def Router.matchErr (v : Version) (r : Router) (method : String) (path : List Char) : Bool :=
  r.routes.foldl (fun e rt => rt.matchErr v method path e) false

/-- Go `strings.Split(s, "/")` on a character list: the elements between slashes. -/
def splitSlash : List Char → List (List Char)
  | [] => [[]]
  | c :: cs =>
      if c = '/' then [] :: splitSlash cs
      else
        match splitSlash cs with
        | [] => [[c]]
        | e :: es => (c :: e) :: es

/-- One step of the loop of Go `path.Clean` on the next path element; `out` holds the
elements written so far, last one first. An empty element and `.` are skipped; `..` removes
the last element written, unless there is none to remove (then it is dropped on a rooted
path and written on a relative one, where it can no longer be removed); any other element
is written. -/
def cleanStep (rooted : Bool) (out : List (List Char)) (e : List Char) : List (List Char) :=
  if e = [] ∨ e = ['.'] then out
  else if e = ['.', '.'] then
    match out with
    | [] => if rooted then [] else [e]
    | o :: os => if rooted = false ∧ o = ['.', '.'] then e :: o :: os else os
  else e :: out

/-- Writes the elements separated by `/`. -/
def joinSlash : List (List Char) → List Char
  | [] => []
  | [e] => e
  | e :: es => e ++ '/' :: joinSlash es

/-- Go `path.Clean`: the shortest path equivalent to `p` by purely lexical processing. -/
def Clean (p : List Char) : List Char :=
  if p = [] then ['.']
  else
    let rooted := p.head? = some '/'
    let out := (splitSlash p).foldl (cleanStep rooted) []
    if rooted then '/' :: joinSlash out.reverse
    else if out = [] then ['.'] else joinSlash out.reverse

/-- Function `cleanPath` of mux: the canonical form of a request path, keeping a trailing
slash. -/
def cleanPath (p : List Char) : List Char :=
  if p = [] then ['/']
  else
    let p1 := if p.head? = some '/' then p else '/' :: p
    let np := Clean p1
    if hasSlashSuffix p1 && np != ['/'] then np ++ ['/'] else np

/-- Method `Router.ServeHTTP`: a path that is not in canonical form is answered by a
redirect to its canonical form; otherwise the matching route decides; without a match the
request goes to the method-not-allowed handler when `ErrMethodMismatch` is recorded, and to
`http.NotFoundHandler()` otherwise. -/
def Router.ServeHTTP (r : Router) (v : Version) (method : String) (path : List Char) :
    Outcome :=
  if cleanPath path ≠ path then Outcome.movedPermanently (cleanPath path)
  else
    match r.Match method path with
    | some o => o
    | none => if r.matchErr v method path then Outcome.methodNotAllowed else Outcome.notFound

end mux

/-- The body of the loop of `NewRouter`: the mux route built by
`router.Methods(route.Method).Path(route.Pattern).Handler(route.HandlerFunc)`. -/
def registered (router : mux.Router) (route : Route) : mux.Route :=
  ((router.NewRoute.Methods route.Method).Path route.Pattern).Handler route.HandlerFunc

/-- Function `NewRouter` of `routes.go`: a router with `StrictSlash(true)` on which every
entry of `routes` is registered, in table order. -/
def NewRouter : mux.Router :=
  routes.foldl
    (fun router route => { router with routes := router.routes ++ [registered router route] })
    (mux.NewRouter.StrictSlash true)

/-- The path matcher that `NewRouter` compiles for a table entry, applied to a request:
the method must be the entry's and the path must match the entry's pattern. -/
def Route.matches (strictSlash : Bool) (route : Route) (method : String) (path : List Char) : Bool :=
  decide (method = mux.ToUpper route.Method) &&
    (match mux.newRouteRegexp route.Pattern strictSlash with
     | some re => (re.Match path).isSome
     | none => false)

/-! ## Records, storage and handlers

`routes.go` names the handlers and the tests call `HTTPError` and the storage; their
sources are not part of the two files embedded above, so they are modelled from the
specification. The JSON codec (Go `encoding/json`), the job id generator and the text of a
redirect (Go `net/http`) are taken as parameters. -/

/-- Modelled from the spec: the `video` object of a preset (section 3); the record type
itself is not among the embedded sources. -/
structure VideoPreset where
  Width : String := ""
  Height : String := ""
  Codec : String := ""
  Bitrate : String := ""
  GopSize : String := ""
  GopMode : String := ""
  InterlaceMode : String := ""
  deriving DecidableEq, Repr

/-- Modelled from the spec: the `audio` object of a preset (section 3). -/
structure AudioPreset where
  Codec : String := ""
  Bitrate : String := ""
  deriving DecidableEq, Repr

/-- Modelled from the spec: the Preset record of section 3, keyed by `name`. -/
structure Preset where
  Name : String := ""
  Description : String := ""
  Container : String := ""
  Profile : String := ""
  ProfileLevel : String := ""
  RateControl : String := ""
  Video : VideoPreset := {}
  Audio : AudioPreset := {}
  deriving DecidableEq, Repr

/-- Modelled from the spec: the Job record of section 3; `Preset` is the resolved preset,
embedded by value. -/
structure Job where
  ID : String := ""
  Source : String := ""
  Destination : String := ""
  Preset : Preset := {}
  Status : String := ""
  Progress : String := ""
  deriving DecidableEq, Repr

/-- Modelled from the spec: the body of `POST /jobs` (section 6),
`source`, `destination` and the preset name. -/
structure JobInput where
  Source : String := ""
  Destination : String := ""
  Preset : String := ""
  deriving DecidableEq, Repr

/-- Modelled from the spec: the state owned by the Storage Interface (sections 2 and 6),
the stored presets and jobs. -/
structure Storage where
  presets : List Preset := []
  jobs : List Job := []
  deriving DecidableEq, Repr

/-- Modelled from the spec: `clear()` of the Storage Interface. -/
def Storage.ClearDatabase (_ : Storage) : Storage := {}

/-- Modelled from the spec: `storePreset` of the Storage Interface, with the
create-or-overwrite semantics of section 4.2 (a stored preset of the same name is
replaced, so names stay unique). -/
def Storage.StorePreset (db : Storage) (p : Preset) : Storage :=
  { db with presets := db.presets.filter (fun q => decide (q.Name ≠ p.Name)) ++ [p] }

/-- Modelled from the spec: `getPresetByName` of the Storage Interface; `none` is the
"not found" signal. -/
def Storage.RetrievePreset (db : Storage) (name : String) : Option Preset :=
  db.presets.find? (fun q => decide (q.Name = name))

/-- Modelled from the spec: `getPresets` of the Storage Interface. -/
def Storage.GetPresets (db : Storage) : List Preset := db.presets

/-- Modelled from the spec: `storeJob` of the Storage Interface. -/
def Storage.StoreJob (db : Storage) (j : Job) : Storage :=
  { db with jobs := db.jobs.filter (fun q => decide (q.ID ≠ j.ID)) ++ [j] }

/-- Modelled from the spec: `getJobByID` of the Storage Interface. -/
def Storage.RetrieveJob (db : Storage) (id : String) : Option Job :=
  db.jobs.find? (fun q => decide (q.ID = id))

/-- Modelled from the spec: `getJobs` of the Storage Interface. -/
def Storage.GetJobs (db : Storage) : List Job := db.jobs

/-- An HTTP response as a test recorder sees it: status code, content type, body and the
`Location` header. -/
structure Response where
  Code : Nat := 200
  ContentType : String := ""
  Body : String := ""
  Location : String := ""
  deriving DecidableEq, Repr

/-- The libraries the handlers and the router are given: the JSON codec (decoding fails
with the decoder's error text), the job id generator, and the text of a redirect as the
HTTP library writes it for a request with the given method and path that is redirected to
the given path (the `Location` header, and for some requests a content type and a short
HTML note). -/
structure Env where
  decodePreset : String → Except String Preset
  decodeJobInput : String → Except String JobInput
  encodePreset : Preset → String
  encodePresets : List Preset → String
  encodeJob : Job → String
  encodeJobs : List Job → String
  newID : Storage → String
  redirectText : String → List Char → List Char → Response


/-- The content type every handler sets (section 4.6; the tests expect this value). -/
def jsonContentType : String := "application/json; charset=UTF-8"

/-- Modelled from the spec: `HTTPError(w, code, msg, err)`, whose source is not among the
embedded files. It answers with status `code` and the single-field object of section 4.6,
`"error"` holding `<context>: <cause>`. -/
def HTTPError (w : Response) (httpErr : Nat) (msg : String) (err : String) : Response :=
  { w with Code := httpErr, Body := "\x7b\"error\": \"" ++ msg ++ ": " ++ err ++ "\"\x7d" }

/-- The cause reported by the storage for an unknown preset (section 4.6). -/
def errPresetNotFound : String := "preset not found"

/-- The cause reported by the storage for an unknown job. -/
def errJobNotFound : String := "job not found"

/-- Modelled from the spec: the liveness handler of `GET /` (section 6): status 200. -/
def Index (_ : Env) (db : Storage) : Response × Storage :=
  ({ Code := 200, ContentType := jsonContentType }, db)

/-- Modelled from the spec: the create-preset handler of section 4.2: decode the body (on
failure: 400), store the preset, answer 200 with the stored preset. The spec leaves the
context phrase of a decoding error open. -/
def CreatePreset (env : Env) (db : Storage) (body : String) : Response × Storage :=
  let w : Response := { Code := 200, ContentType := jsonContentType }
  match env.decodePreset body with
  | Except.error e => (HTTPError w 400 "unpacking preset" e, db)
  | Except.ok preset => ({ w with Body := env.encodePreset preset }, db.StorePreset preset)

/-- Modelled from the spec: the update-preset handler of section 4.2: decode the body (on
failure: 400), look the preset up by name (absent: 400, section 6), replace it, answer 200
with the stored preset. -/
def UpdatePreset (env : Env) (db : Storage) (body : String) : Response × Storage :=
  let w : Response := { Code := 200, ContentType := jsonContentType }
  match env.decodePreset body with
  | Except.error e => (HTTPError w 400 "unpacking preset" e, db)
  | Except.ok preset =>
      match db.RetrievePreset preset.Name with
      | none => (HTTPError w 400 "retrieving preset" errPresetNotFound, db)
      | some _ => ({ w with Body := env.encodePreset preset }, db.StorePreset preset)

/-- Modelled from the spec: the list-presets handler of section 4.3. -/
def ListPresets (env : Env) (db : Storage) : Response × Storage :=
  ({ Code := 200, ContentType := jsonContentType, Body := env.encodePresets db.GetPresets }, db)

/-- Modelled from the spec: the get-preset handler of section 4.3: look up the `presetName`
path parameter; absent: not found; otherwise 200 with the full record. -/
def GetPresetDetails (env : Env) (db : Storage) (vars : List (String × List Char)) :
    Response × Storage :=
  let w : Response := { Code := 200, ContentType := jsonContentType }
  let presetName := String.mk ((vars.lookup "presetName").getD [])
  match db.RetrievePreset presetName with
  | none => (HTTPError w 404 "retrieving preset" errPresetNotFound, db)
  | some preset => ({ w with Body := env.encodePreset preset }, db)

/-- Modelled from the spec: the create-job handler of section 4.4: decode the body (on
failure: 400), resolve the named preset (absent: 400 with context `retrieving preset`),
build the job with the preset embedded by value, a fresh id and empty status and progress,
store it, answer 200 with the job. -/
def CreateJob (env : Env) (db : Storage) (body : String) : Response × Storage :=
  let w : Response := { Code := 200, ContentType := jsonContentType }
  match env.decodeJobInput body with
  | Except.error e => (HTTPError w 400 "unpacking job data" e, db)
  | Except.ok input =>
      match db.RetrievePreset input.Preset with
      | none => (HTTPError w 400 "retrieving preset" errPresetNotFound, db)
      | some preset =>
          let job : Job :=
            { ID := env.newID db, Source := input.Source, Destination := input.Destination,
              Preset := preset, Status := "", Progress := "" }
          ({ w with Body := env.encodeJob job }, db.StoreJob job)

/-- Modelled from the spec: the list-jobs handler of section 4.5. -/
def ListJobs (env : Env) (db : Storage) : Response × Storage :=
  ({ Code := 200, ContentType := jsonContentType, Body := env.encodeJobs db.GetJobs }, db)

/-- Modelled from the spec: the get-job handler of section 4.5. -/
def GetJobDetails (env : Env) (db : Storage) (vars : List (String × List Char)) :
    Response × Storage :=
  let w : Response := { Code := 200, ContentType := jsonContentType }
  let jobId := String.mk ((vars.lookup "jobId").getD [])
  match db.RetrieveJob jobId with
  | none => (HTTPError w 404 "retrieving job" errJobNotFound, db)
  | some job => ({ w with Body := env.encodeJob job }, db)

/-- The function a name of the route table stands for. -/
def Handler.run (h : Handler) (env : Env) (db : Storage) (vars : List (String × List Char))
    (body : String) : Response × Storage :=
  match h with
  | Handler.Index => Snickers.Index env db
  | Handler.CreatePreset => Snickers.CreatePreset env db body
  | Handler.UpdatePreset => Snickers.UpdatePreset env db body
  | Handler.ListPresets => Snickers.ListPresets env db
  | Handler.GetPresetDetails => Snickers.GetPresetDetails env db vars
  | Handler.CreateJob => Snickers.CreateJob env db body
  | Handler.ListJobs => Snickers.ListJobs env db
  | Handler.GetJobDetails => Snickers.GetJobDetails env db vars

/-- A request served by the router of `NewRouter` (`server.ServeHTTP(response, request)` in
the tests), with the mux release `v` linked in: the handler chosen by the router runs on the
storage; a redirect has status 301 and otherwise the text the library writes; no match is
Go's "404 page not found", and a recorded method mismatch is status 405 without a body. -/
def ServeHTTP (env : Env) (v : mux.Version) (db : Storage) (method : String)
    (path : List Char) (body : String) : Response × Storage :=
  match NewRouter.ServeHTTP v method path with
  | mux.Outcome.serve h vars => h.run env db vars body
  | mux.Outcome.movedPermanently target =>
      ({ env.redirectText method path target with Code := 301 }, db)
  | mux.Outcome.notFound =>
      ({ Code := 404, ContentType := "text/plain; charset=utf-8",
         Body := "404 page not found\n" }, db)
  | mux.Outcome.methodNotAllowed => ({ Code := 405 }, db)

/-- The body is a JSON object with the single field `error` (the error envelope). -/
def hasErrorField (body : String) : Prop :=
  ∃ msg : String, body = "\x7b\"error\": \"" ++ msg ++ "\"\x7d"

/-- A preset name that is one ordinary path element: non-empty, without `/`, and neither
`.` nor `..`. -/
def routableName (name : String) : Prop :=
  name.toList ≠ [] ∧ '/' ∉ name.toList ∧ name.toList ≠ ['.'] ∧ name.toList ≠ ['.', '.']

/-- The preset of the test "GET for a given preset should return preset details". -/
def examplePreset : Preset :=
  { Name := "examplePreset", Description := "This is an example of preset",
    Container := "mp4", Profile := "high", ProfileLevel := "3.1", RateControl := "VBR",
    Video := { Width := "720", Height := "1080", Codec := "h264", Bitrate := "10000",
               GopSize := "90", GopMode := "fixed", InterlaceMode := "progressive" },
    Audio := { Codec := "aac", Bitrate := "64000" } }

/-- Stand-in libraries for concrete runs. A preset is written as its name, and the one body
that reads back as a preset is the name of `examplePreset`; a job body is read as the name
of the preset it asks for; a job is written as its id; a redirect carries its target, with
the HTML note for a `GET`. -/
def stubEnv : Env where
  decodePreset := fun s =>
    if s = "examplePreset" then Except.ok examplePreset
    else Except.error "unexpected end of JSON input"
  decodeJobInput := fun s =>
    if s = "" then Except.error "EOF"
    else Except.ok { Source := "http://flv.io/src.mp4", Destination := "s3://l@p:google.com",
                     Preset := s }
  encodePreset := fun p => p.Name
  encodePresets := fun ps => String.join (ps.map (fun p => p.Name))
  encodeJob := fun j => j.ID
  encodeJobs := fun js => String.join (js.map (fun j => j.ID))
  newID := fun _ => "1"
  redirectText := fun method _ target =>
    if method = "GET" then
      { ContentType := "text/html; charset=utf-8",
        Body := "<a href=\"" ++ String.mk target ++ "\">Moved Permanently</a>.\n\n",
        Location := String.mk target }
    else { Location := String.mk target }

end Snickers

namespace Snickers
namespace mux

/-- The end of every compiled expression: nothing left, or one slash under `strictSlash`. -/
theorem matchPieces_nil (ss : Bool) (s : List Char) :
    matchPieces ss [] s = if s = [] ∨ (ss = true ∧ s = ['/']) then some [] else none := by
  simp [matchPieces]

theorem matchPieces_lit (ss : Bool) (l : List Char) (ps : List Piece) (s : List Char) :
    matchPieces ss (Piece.lit l :: ps) (l ++ s) = matchPieces ss ps s := by
  simp [matchPieces]

theorem matchPieces_lit_prefix (ss : Bool) (l : List Char) (ps : List Piece) (p : List Char)
    (v : List (String × List Char)) (h : matchPieces ss (Piece.lit l :: ps) p = some v) :
    ∃ s, p = l ++ s ∧ matchPieces ss ps s = some v := by
  simp only [matchPieces] at h
  split at h
  · rename_i hp
    rw [List.isPrefixOf_iff_prefix] at hp
    refine ⟨p.drop l.length, ?_, h⟩
    obtain ⟨t, rfl⟩ := hp
    simp
  · cases h

/-- The placeholder at the end of a template: it binds the whole remaining segment. -/
theorem plusNotSlash_end (ss : Bool) (n : String) (s acc : List Char) :
    plusNotSlash (fun v rest => (matchPieces ss [Piece.lit []] rest).map (fun vs => (n, v) :: vs))
        acc s =
      if s.takeWhile (fun c => c != '/') ≠ [] ∧
          (s.dropWhile (fun c => c != '/') = [] ∨
            (ss = true ∧ s.dropWhile (fun c => c != '/') = ['/'])) then
        some [(n, acc.reverse ++ s.takeWhile (fun c => c != '/'))]
      else none := by
  induction s generalizing acc with
  | nil => simp [plusNotSlash]
  | cons c cs ih =>
    by_cases hc : c = '/'
    · subst hc
      simp [plusNotSlash]
    · rw [plusNotSlash, if_neg hc, ih]
      have hm : matchPieces ss [Piece.lit []] cs =
          if cs = [] ∨ (ss = true ∧ cs = ['/']) then some [] else none := by
        simp [matchPieces]
      cases cs with
      | nil => simp [hc, matchPieces]
      | cons d ds =>
        by_cases hd : d = '/'
        · subst hd
          simp [hc, hm]
        · simp [hc, hd, hm]

theorem takeWhile_notSlash (s : List Char) (h : '/' ∉ s) :
    s.takeWhile (fun c => c != '/') = s := by
  induction s with
  | nil => rfl
  | cons c cs ih =>
    simp only [List.mem_cons, not_or] at h
    have hc : c ≠ '/' := fun e => h.1 e.symm
    simp [List.takeWhile_cons, hc, ih h.2]

theorem dropWhile_notSlash (s : List Char) (h : '/' ∉ s) :
    s.dropWhile (fun c => c != '/') = [] := by
  induction s with
  | nil => rfl
  | cons c cs ih =>
    simp only [List.mem_cons, not_or] at h
    have hc : c ≠ '/' := fun e => h.1 e.symm
    simp [List.dropWhile_cons, hc, ih h.2]

theorem notSlash_takeWhile (s : List Char) : '/' ∉ s.takeWhile (fun c => c != '/') := by
  intro h
  have := List.mem_takeWhile_imp h
  simp at this

theorem takeWhile_append_slash (s : List Char) (h : '/' ∉ s) (t : List Char) :
    (s ++ '/' :: t).takeWhile (fun c => c != '/') = s ∧
      (s ++ '/' :: t).dropWhile (fun c => c != '/') = '/' :: t := by
  induction s with
  | nil => simp [List.takeWhile, List.dropWhile]
  | cons c cs ih =>
    simp only [List.mem_cons, not_or] at h
    have hc : c ≠ '/' := fun e => h.1 e.symm
    simp [List.takeWhile_cons, List.dropWhile_cons, hc, ih h.2]

/-- A template that is one literal matches the literal itself and, under `strictSlash`,
the literal followed by one slash; nothing else. -/
theorem matchPieces_lit_only (ss : Bool) (l p : List Char) :
    matchPieces ss [Piece.lit l] p =
      if p = l ∨ (ss = true ∧ p = l ++ ['/']) then some [] else none := by
  by_cases hp : l <+: p
  · obtain ⟨t, rfl⟩ := hp
    rw [matchPieces_lit, matchPieces_nil]
    simp
  · have h1 : ¬ (p = l ∨ (ss = true ∧ p = l ++ ['/'])) := by
      rintro (rfl | ⟨_, rfl⟩)
      · exact hp (List.prefix_refl _)
      · exact hp (List.prefix_append _ _)
    rw [if_neg h1]
    simp [matchPieces, List.isPrefixOf_iff_prefix, hp]

/-- A template `l{n}` applied to `l ++ s`: the placeholder binds the segment up to the next
slash, which must be non-empty and be the whole rest, up to one final slash under
`strictSlash`. -/
theorem matchPieces_var_end (ss : Bool) (l : List Char) (n : String) (s : List Char) :
    matchPieces ss [Piece.lit l, Piece.var n, Piece.lit []] (l ++ s) =
      if s.takeWhile (fun c => c != '/') ≠ [] ∧
          (s.dropWhile (fun c => c != '/') = [] ∨
            (ss = true ∧ s.dropWhile (fun c => c != '/') = ['/'])) then
        some [(n, s.takeWhile (fun c => c != '/'))]
      else none := by
  rw [matchPieces_lit]
  simp only [matchPieces]
  have := plusNotSlash_end ss n s []
  simp only [matchPieces] at this
  rw [this]
  simp

/-- What a successful match of a template `l{n}` says about the path. -/
theorem matchPieces_var_end_some (ss : Bool) (l : List Char) (n : String) (p : List Char)
    (v : List (String × List Char))
    (h : matchPieces ss [Piece.lit l, Piece.var n, Piece.lit []] p = some v) :
    ∃ s, s ≠ [] ∧ '/' ∉ s ∧ v = [(n, s)] ∧ (p = l ++ s ∨ (ss = true ∧ p = l ++ s ++ ['/'])) := by
  obtain ⟨t, rfl, -⟩ := matchPieces_lit_prefix ss l _ p v h
  rw [matchPieces_var_end] at h
  split at h
  · rename_i hc
    obtain ⟨hne, hend⟩ := hc
    refine ⟨t.takeWhile (fun c => c != '/'), hne, notSlash_takeWhile t, ?_, ?_⟩
    · exact (Option.some.inj h).symm
    · have hsplit := List.takeWhile_append_dropWhile (fun c => c != '/') t
      rcases hend with h0 | ⟨hs, h1⟩
      · left
        rw [h0, List.append_nil] at hsplit
        rw [hsplit]
      · right
        refine ⟨hs, ?_⟩
        rw [h1] at hsplit
        rw [List.append_assoc, hsplit]
  · cases h

theorem matchPieces_var_end_seg (ss : Bool) (l : List Char) (n : String) (s : List Char)
    (hne : s ≠ []) (hs : '/' ∉ s) :
    matchPieces ss [Piece.lit l, Piece.var n, Piece.lit []] (l ++ s) = some [(n, s)] := by
  rw [matchPieces_var_end, takeWhile_notSlash s hs, dropWhile_notSlash s hs]
  simp [hne]

theorem matchPieces_var_end_seg_slash (l : List Char) (n : String) (s : List Char)
    (hne : s ≠ []) (hs : '/' ∉ s) :
    matchPieces true [Piece.lit l, Piece.var n, Piece.lit []] (l ++ (s ++ ['/'])) =
      some [(n, s)] := by
  rw [matchPieces_var_end, (takeWhile_append_slash s hs []).1, (takeWhile_append_slash s hs []).2]
  simp [hne]

theorem splitSlash_ne_nil (s : List Char) : splitSlash s ≠ [] := by
  cases s with
  | nil => simp [splitSlash]
  | cons c cs =>
    rw [splitSlash]
    split
    · simp
    · split <;> simp

theorem splitSlash_notSlash (s : List Char) (h : '/' ∉ s) : splitSlash s = [s] := by
  induction s with
  | nil => rfl
  | cons c cs ih =>
    simp only [List.mem_cons, not_or] at h
    have hc : c ≠ '/' := fun e => h.1 e.symm
    rw [splitSlash, if_neg hc, ih h.2]

theorem splitSlash_append (a b : List Char) :
    splitSlash (a ++ '/' :: b) = splitSlash a ++ splitSlash b := by
  induction a with
  | nil => simp [splitSlash]
  | cons c cs ih =>
    by_cases hc : c = '/'
    · subst hc
      simp [splitSlash, ih]
    · rw [List.cons_append, splitSlash, if_neg hc, ih, splitSlash, if_neg hc]
      cases hsp : splitSlash cs with
      | nil => exact absurd hsp (splitSlash_ne_nil cs)
      | cons e es => simp

theorem hasSlashSuffix_concat (a : List Char) : hasSlashSuffix (a ++ ['/']) = true := by
  simp [hasSlashSuffix]

theorem hasSlashSuffix_append_seg (a s : List Char) (hne : s ≠ []) (hs : '/' ∉ s) :
    hasSlashSuffix (a ++ s) = false := by
  simp only [hasSlashSuffix, decide_eq_false_iff_not]
  intro h
  rw [List.getLast?_append_of_ne_nil _ hne] at h
  exact hs (List.mem_of_getLast?_eq_some h)

/-- Cleaning leaves `/d/s` alone when `d` and `s` are ordinary path elements. -/
theorem cleanPath_two (d s : List Char) (hd : d ≠ []) (hds : '/' ∉ d) (hd1 : d ≠ ['.'])
    (hd2 : d ≠ ['.', '.']) (hne : s ≠ []) (hs : '/' ∉ s) (h1 : s ≠ ['.'])
    (h2 : s ≠ ['.', '.']) :
    cleanPath ('/' :: (d ++ '/' :: s)) = '/' :: (d ++ '/' :: s) := by
  have hsfx : hasSlashSuffix ('/' :: (d ++ '/' :: s)) = false := by
    have := hasSlashSuffix_append_seg ('/' :: d ++ ['/']) s hne hs
    simpa using this
  have hsplit : splitSlash ('/' :: (d ++ '/' :: s)) = [[], d, s] := by
    have e : '/' :: (d ++ '/' :: s) = ('/' :: d) ++ '/' :: s := by simp
    rw [e, splitSlash_append, splitSlash_notSlash s hs]
    simp [splitSlash, splitSlash_notSlash d hds]
  simp [cleanPath, Clean, hsfx, hsplit, cleanStep, hd, hd1, hd2, hne, h1, h2, joinSlash]

/-- Cleaning leaves `/d/s/` alone when `d` and `s` are ordinary path elements. -/
theorem cleanPath_two_slash (d s : List Char) (hd : d ≠ []) (hds : '/' ∉ d) (hd1 : d ≠ ['.'])
    (hd2 : d ≠ ['.', '.']) (hne : s ≠ []) (hs : '/' ∉ s) (h1 : s ≠ ['.'])
    (h2 : s ≠ ['.', '.']) :
    cleanPath ('/' :: (d ++ '/' :: (s ++ ['/']))) = '/' :: (d ++ '/' :: (s ++ ['/'])) := by
  have hsfx : hasSlashSuffix ('/' :: (d ++ '/' :: (s ++ ['/']))) = true := by
    have := hasSlashSuffix_concat ('/' :: d ++ '/' :: s)
    simpa using this
  have hsplit : splitSlash ('/' :: (d ++ '/' :: (s ++ ['/']))) = [[], d, s, []] := by
    have e : '/' :: (d ++ '/' :: (s ++ ['/'])) = ('/' :: d) ++ '/' :: (s ++ '/' :: []) := by simp
    rw [e, splitSlash_append, splitSlash_append, splitSlash_notSlash s hs]
    simp [splitSlash, splitSlash_notSlash d hds]
  simp [cleanPath, Clean, hsfx, hsplit, cleanStep, hd, hd1, hd2, hne, h1, h2, joinSlash]

end mux

/-- A table entry whose pattern compiles to one literal. -/
theorem matches_lit (ss : Bool) (M tpl : String) (h : Handler) (l : List Char)
    (hre : mux.newRouteRegexp tpl ss = some ⟨tpl, ss, [mux.Piece.lit l]⟩)
    (m : String) (p : List Char) :
    Route.matches ss ⟨M, tpl, h⟩ m p = true ↔
      m = mux.ToUpper M ∧ (p = l ∨ (ss = true ∧ p = l ++ ['/'])) := by
  simp only [Route.matches, hre, mux.routeRegexp.Match, mux.matchPieces_lit_only]
  by_cases hp : p = l ∨ (ss = true ∧ p = l ++ ['/']) <;> simp [hp]

/-- A table entry whose pattern compiles to a literal followed by one placeholder. -/
theorem matches_var (ss : Bool) (M tpl : String) (h : Handler) (l : List Char) (n : String)
    (hre : mux.newRouteRegexp tpl ss =
      some ⟨tpl, ss, [mux.Piece.lit l, mux.Piece.var n, mux.Piece.lit []]⟩)
    (m : String) (p : List Char) :
    Route.matches ss ⟨M, tpl, h⟩ m p = true ↔
      m = mux.ToUpper M ∧
        ∃ s, s ≠ [] ∧ '/' ∉ s ∧ (p = l ++ s ∨ (ss = true ∧ p = l ++ s ++ ['/'])) := by
  simp only [Route.matches, hre, mux.routeRegexp.Match, Bool.and_eq_true, decide_eq_true_eq]
  constructor
  · rintro ⟨hm, hp⟩
    refine ⟨hm, ?_⟩
    obtain ⟨v, hv⟩ := Option.isSome_iff_exists.mp hp
    obtain ⟨s, hne, hs, -, hps⟩ := mux.matchPieces_var_end_some ss l n p v hv
    exact ⟨s, hne, hs, hps⟩
  · rintro ⟨hm, s, hne, hs, hps⟩
    refine ⟨hm, ?_⟩
    rcases hps with rfl | ⟨rfl, rfl⟩
    · rw [mux.matchPieces_var_end_seg ss l n s hne hs]; rfl
    · rw [List.append_assoc, mux.matchPieces_var_end_seg_slash l n s hne hs]; rfl

theorem filter_length_le_one {α : Type} (f : α → Bool) (l : List α)
    (h : l.Pairwise (fun a b => ¬ (f a = true ∧ f b = true))) : (l.filter f).length ≤ 1 := by
  induction l with
  | nil => simp
  | cons a as ih =>
    rw [List.pairwise_cons] at h
    by_cases ha : f a = true
    · have : as.filter f = [] := by
        rw [List.filter_eq_nil_iff]
        intro b hb hfb
        exact h.1 b hb ⟨ha, hfb⟩
      simp [List.filter_cons, ha, this]
    · simp only [List.filter_cons, ha]
      exact ih h.2

theorem routes_exclusive (ss : Bool) (m : String) (p : List Char) :
    routes.Pairwise (fun a b => ¬ (a.matches ss m p = true ∧ b.matches ss m p = true)) := by
  have e0t := matches_lit true "GET" "/" Handler.Index [] rfl m p
  have e0f := matches_lit false "GET" "/" Handler.Index ['/'] rfl m p
  have e1 := fun ss => matches_lit ss "POST" "/presets" Handler.CreatePreset "/presets".toList
    (by cases ss <;> rfl) m p
  have e2 := fun ss => matches_lit ss "PUT" "/presets" Handler.UpdatePreset "/presets".toList
    (by cases ss <;> rfl) m p
  have e3 := fun ss => matches_lit ss "GET" "/presets" Handler.ListPresets "/presets".toList
    (by cases ss <;> rfl) m p
  have e4 := fun ss => matches_var ss "GET" "/presets/{presetName}" Handler.GetPresetDetails
    "/presets/".toList "presetName" (by cases ss <;> rfl) m p
  have e5 := fun ss => matches_lit ss "POST" "/jobs" Handler.CreateJob "/jobs".toList
    (by cases ss <;> rfl) m p
  have e6 := fun ss => matches_lit ss "GET" "/jobs" Handler.ListJobs "/jobs".toList
    (by cases ss <;> rfl) m p
  have e7 := fun ss => matches_var ss "GET" "/jobs/{jobId}" Handler.GetJobDetails
    "/jobs/".toList "jobId" (by cases ss <;> rfl) m p
  have hG : mux.ToUpper "GET" = "GET" := by decide
  have hP : mux.ToUpper "POST" = "POST" := by decide
  have hU : mux.ToUpper "PUT" = "PUT" := by decide
  rw [hG] at e0t e0f
  simp only [hG, hP, hU] at e1 e2 e3 e4 e5 e6 e7
  cases ss
  · simp only [routes, List.pairwise_cons, List.Pairwise.nil, List.mem_cons, List.not_mem_nil,
      forall_eq_or_imp, or_false, and_true, forall_eq, e0f, e1, e2, e3, e4, e5, e6, e7,
      Bool.false_eq_true, false_and, or_false, not_and, and_imp, String.toList]
    constructorm* _ ∧ _
    all_goals
      first
      | (intro a hf; exact hf.elim)
      | (rintro rfl _ h; exact absurd h (by decide))
      | (rintro - rfl - h2; revert h2; simp)
      | (rintro - ⟨s, hne, hs, rfl⟩ - h2; revert h2; simp)
  · simp only [routes, List.pairwise_cons, List.Pairwise.nil, List.mem_cons, List.not_mem_nil,
      forall_eq_or_imp, or_false, and_true, forall_eq, e0t, e1, e2, e3, e4, e5, e6, e7,
      eq_self_iff_true, true_and, not_and, and_imp, String.toList]
    constructorm* _ ∧ _
    all_goals
      first
      | (intro a hf; exact hf.elim)
      | (rintro rfl _ h; exact absurd h (by decide))
      | (rintro - h1 - h2; revert h2; rcases h1 with rfl | rfl <;> simp)
      | (rintro - ⟨s, hne, hs, h1⟩ - h2; revert h2; rcases h1 with rfl | rfl <;> simp)

theorem newRouteRegexp_fields (tpl : String) (ss : Bool) (re : mux.routeRegexp)
    (h : mux.newRouteRegexp tpl ss = some re) : re.template = tpl ∧ re.strictSlash = ss := by
  simp only [mux.newRouteRegexp, Option.map_eq_some'] at h
  obtain ⟨ps, -, rfl⟩ := h
  exact ⟨rfl, rfl⟩

/-- What a registered table entry does with a request. -/
theorem registered_Match (R : mux.Router) (route : Route) (re : mux.routeRegexp)
    (hre : mux.newRouteRegexp route.Pattern R.strictSlash = some re) (m : String)
    (p : List Char) :
    (registered R route).Match m p =
      if m = mux.ToUpper route.Method then
        match mux.matchPieces R.strictSlash re.pieces p with
        | none => none
        | some vars =>
            if R.strictSlash &&
                (mux.hasSlashSuffix p != mux.hasSlashSuffix route.Pattern.toList) then
              some (mux.Outcome.movedPermanently
                (if mux.hasSlashSuffix p then p.dropLast else p ++ ['/']))
            else some (mux.Outcome.serve route.HandlerFunc vars)
      else none := by
  obtain ⟨ht, hs⟩ := newRouteRegexp_fields _ _ _ hre
  simp only [registered, mux.Route.Handler, mux.Route.Path, mux.Route.Methods,
    mux.Router.NewRoute, hre, mux.Route.Match, mux.routeRegexp.Match, ht, hs]
  by_cases hm : m = mux.ToUpper route.Method
  · simp [hm]
  · simp [hm]

theorem registered_Match_isSome (R : mux.Router) (route : Route) (m : String) (p : List Char) :
    ((registered R route).Match m p).isSome = route.matches R.strictSlash m p := by
  cases hre : mux.newRouteRegexp route.Pattern R.strictSlash with
  | none =>
    simp [registered, mux.Route.Handler, mux.Route.Path, mux.Route.Methods,
      mux.Router.NewRoute, hre, mux.Route.Match, Route.matches]
  | some re =>
    rw [registered_Match R route re hre]
    obtain ⟨ht, hs⟩ := newRouteRegexp_fields _ _ _ hre
    simp only [Route.matches, hre, mux.routeRegexp.Match, hs]
    by_cases hm : m = mux.ToUpper route.Method
    · simp only [hm, if_true, decide_True, Bool.true_and]
      cases mux.matchPieces R.strictSlash re.pieces p with
      | none => rfl
      | some vars => simp only []; split <;> rfl
    · simp [hm]

theorem NewRouter_routes :
    NewRouter.routes = routes.map (registered (mux.NewRouter.StrictSlash true)) := by
  decide

theorem NewRouter_Match (m : String) (p : List Char) :
    NewRouter.Match m p =
      routes.findSome? (fun r => (registered (mux.NewRouter.StrictSlash true) r).Match m p) := by
  rw [mux.Router.Match, NewRouter_routes, List.findSome?_map]
  rfl

theorem findSome?_of_exclusive {α β : Type} (f : α → Option β) (l : List α)
    (hx : l.Pairwise (fun a b => ¬ ((f a).isSome = true ∧ (f b).isSome = true)))
    (r : α) (hr : r ∈ l) (o : β) (h : f r = some o) : l.findSome? f = some o := by
  induction l with
  | nil => cases hr
  | cons a as ih =>
    rw [List.pairwise_cons] at hx
    rcases List.mem_cons.mp hr with rfl | hr'
    · simp [List.findSome?, h]
    · have ha : f a = none := by
        cases hfa : f a with
        | none => rfl
        | some x => exact absurd ⟨by simp [hfa], by simp [h]⟩ (hx.1 r hr')
      simp only [List.findSome?, ha]
      exact ih hx.2 hr'

/-- The router serves a request from a table entry exactly when that entry, registered,
accepts it: no other entry can come first. -/
theorem NewRouter_Match_of_mem (m : String) (p : List Char) (r : Route) (hr : r ∈ routes)
    (o : mux.Outcome) (h : (registered (mux.NewRouter.StrictSlash true) r).Match m p = some o) :
    NewRouter.Match m p = some o := by
  rw [NewRouter_Match]
  refine findSome?_of_exclusive _ routes ?_ r hr o h
  have := routes_exclusive true m p
  refine this.imp ?_
  intro a b hab
  rw [registered_Match_isSome, registered_Match_isSome]
  exact hab

theorem NewRouter_Match_some (m : String) (p : List Char) (o : mux.Outcome)
    (h : NewRouter.Match m p = some o) :
    ∃ r ∈ routes, (registered (mux.NewRouter.StrictSlash true) r).Match m p = some o := by
  rw [NewRouter_Match] at h
  obtain ⟨r, hr, hro⟩ := List.exists_of_findSome?_eq_some h
  exact ⟨r, hr, hro⟩

theorem NewRouter_Match_none (m : String) (p : List Char) :
    NewRouter.Match m p = none ↔ ∀ r ∈ routes, r.matches true m p = false := by
  rw [NewRouter_Match, List.findSome?_eq_none_iff]
  constructor
  · intro h r hr
    have := registered_Match_isSome (mux.NewRouter.StrictSlash true) r m p
    rw [h r hr] at this
    exact this.symm
  · intro h r hr
    have := registered_Match_isSome (mux.NewRouter.StrictSlash true) r m p
    have hs : (mux.NewRouter.StrictSlash true).strictSlash = true := rfl
    rw [hs, h r hr] at this
    cases hm : (registered (mux.NewRouter.StrictSlash true) r).Match m p with
    | none => rfl
    | some o => rw [hm] at this; cases this

theorem ServeHTTP_serve (v : mux.Version) (m : String) (p : List Char) (h : Handler)
    (vars : List (String × List Char)) :
    NewRouter.ServeHTTP v m p = mux.Outcome.serve h vars ↔
      mux.cleanPath p = p ∧ NewRouter.Match m p = some (mux.Outcome.serve h vars) := by
  unfold mux.Router.ServeHTTP
  by_cases hc : mux.cleanPath p = p
  · simp only [hc, ne_eq, not_true_eq_false, if_false, true_and]
    cases NewRouter.Match m p with
    | none => simp only []; split <;> simp
    | some o => simp
  · simp [hc]

/-- A registered entry with a one-literal pattern that has no trailing slash. -/
theorem registered_lit_serve (M tpl : String) (h0 : Handler) (l : List Char)
    (hre : mux.newRouteRegexp tpl true = some ⟨tpl, true, [mux.Piece.lit l]⟩)
    (m : String) (p : List Char) (h : Handler) (vars : List (String × List Char))
    (hm : (registered (mux.NewRouter.StrictSlash true) ⟨M, tpl, h0⟩).Match m p =
      some (mux.Outcome.serve h vars)) :
    m = mux.ToUpper M ∧ h = h0 ∧ vars = [] ∧ (p = l ∨ p = l ++ ['/']) ∧
      mux.hasSlashSuffix p = mux.hasSlashSuffix tpl.toList := by
  rw [registered_Match (mux.NewRouter.StrictSlash true) ⟨M, tpl, h0⟩ _ hre] at hm
  simp only [mux.matchPieces_lit_only] at hm
  split at hm
  · rename_i hmeth
    split at hm
    · cases hm
    · rename_i vars0 hv
      split at hv
      · rename_i hp
        cases hv
        split at hm
        · cases hm
        · rename_i hsl
          simp only [Option.some.injEq, mux.Outcome.serve.injEq] at hm
          refine ⟨hmeth, hm.1.symm, hm.2.symm, ?_, ?_⟩
          · rcases hp with hp | ⟨-, hp⟩
            · exact Or.inl hp
            · exact Or.inr hp
          · simpa [mux.NewRouter, mux.Router.StrictSlash] using hsl
      · cases hv
  · cases hm

/-- A registered entry whose pattern is a literal followed by one placeholder. -/
theorem registered_var_serve (M tpl : String) (h0 : Handler) (l : List Char) (n : String)
    (hre : mux.newRouteRegexp tpl true =
      some ⟨tpl, true, [mux.Piece.lit l, mux.Piece.var n, mux.Piece.lit []]⟩)
    (m : String) (p : List Char) (h : Handler) (vars : List (String × List Char))
    (hm : (registered (mux.NewRouter.StrictSlash true) ⟨M, tpl, h0⟩).Match m p =
      some (mux.Outcome.serve h vars)) :
    m = mux.ToUpper M ∧ h = h0 ∧
      (∃ s, s ≠ [] ∧ '/' ∉ s ∧ vars = [(n, s)] ∧ (p = l ++ s ∨ p = l ++ s ++ ['/'])) ∧
      mux.hasSlashSuffix p = mux.hasSlashSuffix tpl.toList := by
  rw [registered_Match (mux.NewRouter.StrictSlash true) ⟨M, tpl, h0⟩ _ hre] at hm
  split at hm
  · rename_i hmeth
    split at hm
    · cases hm
    · rename_i vars0 hv
      obtain ⟨s, hne, hs, hvs, hp⟩ := mux.matchPieces_var_end_some _ l n p vars0 hv
      split at hm
      · cases hm
      · rename_i hsl
        simp only [Option.some.injEq, mux.Outcome.serve.injEq] at hm
        refine ⟨hmeth, hm.1.symm, ⟨s, hne, hs, hm.2 ▸ hvs, ?_⟩, ?_⟩
        · rcases hp with hp | ⟨-, hp⟩
          · exact Or.inl hp
          · exact Or.inr hp
        · simpa [mux.NewRouter, mux.Router.StrictSlash] using hsl
  · cases hm

/-- The complete list of requests that reach a handler, read off the router. -/
theorem serve_cases (v : mux.Version) (m : String) (p : List Char) (h : Handler)
    (vars : List (String × List Char))
    (hs : NewRouter.ServeHTTP v m p = mux.Outcome.serve h vars) :
    mux.cleanPath p = p ∧
      ((m = "GET" ∧ h = Handler.Index ∧ p = "/".toList ∧ vars = []) ∨
        (m = "POST" ∧ h = Handler.CreatePreset ∧ p = "/presets".toList ∧ vars = []) ∨
        (m = "PUT" ∧ h = Handler.UpdatePreset ∧ p = "/presets".toList ∧ vars = []) ∨
        (m = "GET" ∧ h = Handler.ListPresets ∧ p = "/presets".toList ∧ vars = []) ∨
        (m = "GET" ∧ h = Handler.GetPresetDetails ∧
          ∃ s, s ≠ [] ∧ '/' ∉ s ∧ p = "/presets/".toList ++ s ∧ vars = [("presetName", s)]) ∨
        (m = "POST" ∧ h = Handler.CreateJob ∧ p = "/jobs".toList ∧ vars = []) ∨
        (m = "GET" ∧ h = Handler.ListJobs ∧ p = "/jobs".toList ∧ vars = []) ∨
        (m = "GET" ∧ h = Handler.GetJobDetails ∧
          ∃ s, s ≠ [] ∧ '/' ∉ s ∧ p = "/jobs/".toList ++ s ∧ vars = [("jobId", s)])) := by
  obtain ⟨hc, hm⟩ := (ServeHTTP_serve v m p h vars).mp hs
  refine ⟨hc, ?_⟩
  obtain ⟨r, hr, hrm⟩ := NewRouter_Match_some m p _ hm
  have hG : mux.ToUpper "GET" = "GET" := by decide
  have hP : mux.ToUpper "POST" = "POST" := by decide
  have hU : mux.ToUpper "PUT" = "PUT" := by decide
  simp only [routes, List.mem_cons, List.mem_singleton, List.not_mem_nil, or_false] at hr
  rcases hr with rfl | rfl | rfl | rfl | rfl | rfl | rfl | rfl
  · obtain ⟨h1, h2, h3, h4, h5⟩ := registered_lit_serve "GET" "/" Handler.Index [] rfl m p h vars hrm
    left
    refine ⟨h1.trans hG, h2, ?_, h3⟩
    rcases h4 with rfl | rfl
    · exact absurd h5 (by decide)
    · rfl
  · obtain ⟨h1, h2, h3, h4, h5⟩ :=
      registered_lit_serve "POST" "/presets" Handler.CreatePreset "/presets".toList rfl m p h vars hrm
    right; left
    refine ⟨h1.trans hP, h2, ?_, h3⟩
    rcases h4 with rfl | rfl
    · rfl
    · exact absurd h5 (by decide)
  · obtain ⟨h1, h2, h3, h4, h5⟩ :=
      registered_lit_serve "PUT" "/presets" Handler.UpdatePreset "/presets".toList rfl m p h vars hrm
    right; right; left
    refine ⟨h1.trans hU, h2, ?_, h3⟩
    rcases h4 with rfl | rfl
    · rfl
    · exact absurd h5 (by decide)
  · obtain ⟨h1, h2, h3, h4, h5⟩ :=
      registered_lit_serve "GET" "/presets" Handler.ListPresets "/presets".toList rfl m p h vars hrm
    right; right; right; left
    refine ⟨h1.trans hG, h2, ?_, h3⟩
    rcases h4 with rfl | rfl
    · rfl
    · exact absurd h5 (by decide)
  · obtain ⟨h1, h2, ⟨s, hne, hsl, hv, hp⟩, h5⟩ :=
      registered_var_serve "GET" "/presets/{presetName}" Handler.GetPresetDetails
        "/presets/".toList "presetName" rfl m p h vars hrm
    right; right; right; right; left
    refine ⟨h1.trans hG, h2, s, hne, hsl, ?_, hv⟩
    rcases hp with rfl | rfl
    · rfl
    · rw [mux.hasSlashSuffix_concat] at h5
      exact absurd h5 (by decide)
  · obtain ⟨h1, h2, h3, h4, h5⟩ :=
      registered_lit_serve "POST" "/jobs" Handler.CreateJob "/jobs".toList rfl m p h vars hrm
    right; right; right; right; right; left
    refine ⟨h1.trans hP, h2, ?_, h3⟩
    rcases h4 with rfl | rfl
    · rfl
    · exact absurd h5 (by decide)
  · obtain ⟨h1, h2, h3, h4, h5⟩ :=
      registered_lit_serve "GET" "/jobs" Handler.ListJobs "/jobs".toList rfl m p h vars hrm
    right; right; right; right; right; right; left
    refine ⟨h1.trans hG, h2, ?_, h3⟩
    rcases h4 with rfl | rfl
    · rfl
    · exact absurd h5 (by decide)
  · obtain ⟨h1, h2, ⟨s, hne, hsl, hv, hp⟩, h5⟩ :=
      registered_var_serve "GET" "/jobs/{jobId}" Handler.GetJobDetails "/jobs/".toList
        "jobId" rfl m p h vars hrm
    right; right; right; right; right; right; right
    refine ⟨h1.trans hG, h2, s, hne, hsl, ?_, hv⟩
    rcases hp with rfl | rfl
    · rfl
    · rw [mux.hasSlashSuffix_concat] at h5
      exact absurd h5 (by decide)

/-- A request `GET l ++ s` for a placeholder entry `l{n}` of the table reaches its handler
with `n` bound to `s`, for an ordinary path element `s`. -/
theorem serve_var (v : mux.Version) (r : Route) (hr : r ∈ routes) (d : List Char) (n : String)
    (hre : mux.newRouteRegexp r.Pattern true =
      some ⟨r.Pattern, true, [mux.Piece.lit ('/' :: (d ++ ['/'])), mux.Piece.var n, mux.Piece.lit []]⟩)
    (hsfx : mux.hasSlashSuffix r.Pattern.toList = false)
    (hd : d ≠ []) (hds : '/' ∉ d) (hd1 : d ≠ ['.']) (hd2 : d ≠ ['.', '.'])
    (s : List Char) (hne : s ≠ []) (hs : '/' ∉ s) (h1 : s ≠ ['.']) (h2 : s ≠ ['.', '.']) :
    NewRouter.ServeHTTP v (mux.ToUpper r.Method) ('/' :: (d ++ '/' :: s)) =
      mux.Outcome.serve r.HandlerFunc [(n, s)] := by
  rw [ServeHTTP_serve]
  refine ⟨mux.cleanPath_two d s hd hds hd1 hd2 hne hs h1 h2, ?_⟩
  apply NewRouter_Match_of_mem _ _ r hr
  rw [registered_Match (mux.NewRouter.StrictSlash true) r _ hre]
  have e : '/' :: (d ++ '/' :: s) = ('/' :: (d ++ ['/'])) ++ s := by simp
  have hsl : mux.hasSlashSuffix ('/' :: (d ++ '/' :: s)) = false := by
    rw [e]; exact mux.hasSlashSuffix_append_seg _ s hne hs
  have hmp := mux.matchPieces_var_end_seg true ('/' :: (d ++ ['/'])) n s hne hs
  rw [← e] at hmp
  simp only [if_true]
  have hR : (mux.NewRouter.StrictSlash true).strictSlash = true := rfl
  rw [hR, hmp]
  simp only [hsl, hsfx, bne_self_eq_false, Bool.and_false, Bool.false_eq_true, if_false]

/-- A request `l ++ s ++ "/"` for a placeholder entry `l{n}` of the table is redirected to
`l ++ s`. -/
theorem redirect_var (v : mux.Version) (r : Route) (hr : r ∈ routes) (d : List Char) (n : String)
    (hre : mux.newRouteRegexp r.Pattern true =
      some ⟨r.Pattern, true, [mux.Piece.lit ('/' :: (d ++ ['/'])), mux.Piece.var n, mux.Piece.lit []]⟩)
    (hsfx : mux.hasSlashSuffix r.Pattern.toList = false)
    (hd : d ≠ []) (hds : '/' ∉ d) (hd1 : d ≠ ['.']) (hd2 : d ≠ ['.', '.'])
    (s : List Char) (hne : s ≠ []) (hs : '/' ∉ s) (h1 : s ≠ ['.']) (h2 : s ≠ ['.', '.']) :
    NewRouter.ServeHTTP v (mux.ToUpper r.Method) ('/' :: (d ++ '/' :: (s ++ ['/']))) =
      mux.Outcome.movedPermanently ('/' :: (d ++ '/' :: s)) := by
  have hc := mux.cleanPath_two_slash d s hd hds hd1 hd2 hne hs h1 h2
  have e : '/' :: (d ++ '/' :: (s ++ ['/'])) = ('/' :: (d ++ ['/'])) ++ (s ++ ['/']) := by simp
  have e2 : '/' :: (d ++ '/' :: (s ++ ['/'])) = ('/' :: (d ++ '/' :: s)) ++ ['/'] := by simp
  have hsl : mux.hasSlashSuffix ('/' :: (d ++ '/' :: (s ++ ['/']))) = true := by
    rw [e2]; exact mux.hasSlashSuffix_concat _
  have hmp := mux.matchPieces_var_end_seg_slash ('/' :: (d ++ ['/'])) n s hne hs
  rw [← e] at hmp
  have hR : (mux.NewRouter.StrictSlash true).strictSlash = true := rfl
  have hM : NewRouter.Match (mux.ToUpper r.Method) ('/' :: (d ++ '/' :: (s ++ ['/']))) =
      some (mux.Outcome.movedPermanently ('/' :: (d ++ '/' :: s))) := by
    apply NewRouter_Match_of_mem _ _ r hr
    rw [registered_Match (mux.NewRouter.StrictSlash true) r _ hre]
    simp only [if_true]
    rw [hR, hmp]
    simp only [hsl, hsfx, if_true]
    rw [e2, List.dropLast_concat]
    rfl
  unfold mux.Router.ServeHTTP
  rw [hM]
  simp [hc]

/-- C1: the route table `routes` is exactly the eight rows GET / -> Index,
POST /presets -> CreatePreset, PUT /presets -> UpdatePreset, GET /presets -> ListPresets,
GET /presets/{presetName} -> GetPresetDetails, POST /jobs -> CreateJob, GET /jobs -> ListJobs,
GET /jobs/{jobId} -> GetJobDetails, and `NewRouter` (with `StrictSlash(true)`) registers one
mux route per entry, in order, with that entry's method, pattern and handler. -/
theorem routes_table_registered :
    routes.map (fun r => (r.Method, r.Pattern, r.HandlerFunc)) =
        [("GET", "/", Handler.Index),
         ("POST", "/presets", Handler.CreatePreset),
         ("PUT", "/presets", Handler.UpdatePreset),
         ("GET", "/presets", Handler.ListPresets),
         ("GET", "/presets/{presetName}", Handler.GetPresetDetails),
         ("POST", "/jobs", Handler.CreateJob),
         ("GET", "/jobs", Handler.ListJobs),
         ("GET", "/jobs/{jobId}", Handler.GetJobDetails)] ∧
      routes.length = 8 ∧
      NewRouter.strictSlash = true ∧
      NewRouter.routes.map
          (fun rt => (rt.methods, rt.regexp.map (fun re => re.template), rt.handler, rt.err)) =
        routes.map (fun r => (some [r.Method], some r.Pattern, some r.HandlerFunc, false)) := by
  decide

/-- C10: every entry of `routes` has method GET, POST or PUT, none has method DELETE, and
the only PUT entry is the one on `/presets` (so there is no PUT entry for `/jobs`). -/
theorem routes_methods :
    routes.all (fun r => decide (r.Method = "GET" ∨ r.Method = "POST" ∨ r.Method = "PUT")) = true ∧
      routes.all (fun r => decide (r.Method ≠ "DELETE")) = true ∧
      routes.filter (fun r => decide (r.Method = "PUT")) =
        [⟨"PUT", "/presets", Handler.UpdatePreset⟩] ∧
      routes.filter (fun r => decide (r.Method ≠ "GET" ∧ r.Method ≠ "POST") &&
        decide (r.Pattern ≠ "/presets")) = [] := by
  decide

/-- C2: dispatch is unambiguous. For every method and path at most one entry of `routes`
matches, both when a pattern matches only itself (placeholder: one non-empty segment without
`/`) and when, as the router is configured, one trailing `/` is accepted too; no two entries
share a (method, pattern) pair; `/presets` and `/jobs` are never matched by the placeholder
patterns; and when an entry matches, the router's decision is that entry's and any handler
served is that entry's handler, whichever mux release is linked. -/
theorem dispatch_unambiguous :
    (∀ (ss : Bool) (m : String) (p : List Char),
        (routes.filter (fun r => r.matches ss m p)).length ≤ 1) ∧
      (routes.map (fun r => (r.Method, r.Pattern))).Nodup ∧
      (∀ (ss : Bool) (m : String),
        Route.matches ss ⟨"GET", "/presets/{presetName}", Handler.GetPresetDetails⟩ m
            "/presets".toList = false ∧
          Route.matches ss ⟨"GET", "/jobs/{jobId}", Handler.GetJobDetails⟩ m
            "/jobs".toList = false) ∧
      (∀ (m : String) (p : List Char) (r : Route), r ∈ routes → r.matches true m p = true →
        NewRouter.Match m p = (registered (mux.NewRouter.StrictSlash true) r).Match m p ∧
          ∀ (v : mux.Version) (h : Handler) (vars : List (String × List Char)),
            NewRouter.ServeHTTP v m p = mux.Outcome.serve h vars → h = r.HandlerFunc) := by
  refine ⟨?_, by decide, ?_, ?_⟩
  · intro ss m p
    exact filter_length_le_one _ _ (routes_exclusive ss m p)
  · intro ss m
    constructor
    · cases ss <;> simp [Route.matches] <;> intro _ <;> decide
    · cases ss <;> simp [Route.matches] <;> intro _ <;> decide
  · intro m p r hr hmatch
    have hsome : ((registered (mux.NewRouter.StrictSlash true) r).Match m p).isSome = true := by
      rw [registered_Match_isSome]; exact hmatch
    obtain ⟨o, ho⟩ := Option.isSome_iff_exists.mp hsome
    have hM := NewRouter_Match_of_mem m p r hr o ho
    refine ⟨hM.trans ho.symm, ?_⟩
    intro v h vars hs
    obtain ⟨-, hm⟩ := (ServeHTTP_serve v m p h vars).mp hs
    rw [hM] at hm
    cases hm
    cases hre : mux.newRouteRegexp r.Pattern (mux.NewRouter.StrictSlash true).strictSlash with
    | none =>
      have hf : r.matches true m p = false := by
        have hR : (mux.NewRouter.StrictSlash true).strictSlash = true := rfl
        rw [hR] at hre
        simp [Route.matches, hre]
      rw [hf] at hmatch; cases hmatch
    | some re =>
      rw [registered_Match _ r re hre] at ho
      split at ho
      · split at ho
        · cases ho
        · split at ho
          · cases ho
          · simp only [Option.some.injEq, mux.Outcome.serve.injEq] at ho
            exact ho.1.symm
      · cases ho

/-- Witness for C2 at `GET /presets`: the entry `GET /presets` matches, the router's
decision is that entry's, and the handler served is `ListPresets`. -/
theorem dispatch_unambiguous_witness :
    (⟨"GET", "/presets", Handler.ListPresets⟩ : Route) ∈ routes ∧
      Route.matches true ⟨"GET", "/presets", Handler.ListPresets⟩ "GET" "/presets".toList = true ∧
      NewRouter.Match "GET" "/presets".toList =
        (registered (mux.NewRouter.StrictSlash true)
          ⟨"GET", "/presets", Handler.ListPresets⟩).Match "GET" "/presets".toList ∧
      ∀ (v : mux.Version) (h : Handler) (vars : List (String × List Char)),
        NewRouter.ServeHTTP v "GET" "/presets".toList = mux.Outcome.serve h vars →
          h = Handler.ListPresets :=
  ⟨by decide, by decide,
    dispatch_unambiguous.2.2.2 "GET" "/presets".toList ⟨"GET", "/presets", Handler.ListPresets⟩
      (by decide) (by decide)⟩

/-- An ordinary path element after `/presets/` or `/jobs/` reaches the detail handler. -/
theorem placeholder_binding_aux (v : mux.Version) (s : List Char) (hne : s ≠ []) (hs : '/' ∉ s)
    (h1 : s ≠ ['.']) (h2 : s ≠ ['.', '.']) :
    NewRouter.ServeHTTP v "GET" ("/presets/".toList ++ s) =
        mux.Outcome.serve Handler.GetPresetDetails [("presetName", s)] ∧
      NewRouter.ServeHTTP v "GET" ("/jobs/".toList ++ s) =
        mux.Outcome.serve Handler.GetJobDetails [("jobId", s)] := by
  constructor
  · exact serve_var v ⟨"GET", "/presets/{presetName}", Handler.GetPresetDetails⟩ (by decide)
      "presets".toList "presetName" rfl (by decide) (by decide) (by decide) (by decide)
      (by decide) s hne hs h1 h2
  · exact serve_var v ⟨"GET", "/jobs/{jobId}", Handler.GetJobDetails⟩ (by decide)
      "jobs".toList "jobId" rfl (by decide) (by decide) (by decide) (by decide)
      (by decide) s hne hs h1 h2

/-- C9, as amended: for every non-empty `s` without `/` other than `.` and `..`,
`GET /presets/s` reaches `GetPresetDetails` with `presetName` bound to `s` and `GET /jobs/s`
reaches `GetJobDetails` with `jobId` bound to `s`; these two handlers are reached by no
other method and on no other path. This holds whichever mux release is linked. -/
theorem placeholder_binding :
    (∀ (v : mux.Version) (s : List Char), s ≠ [] → '/' ∉ s → s ≠ ['.'] → s ≠ ['.', '.'] →
        NewRouter.ServeHTTP v "GET" ("/presets/".toList ++ s) =
            mux.Outcome.serve Handler.GetPresetDetails [("presetName", s)] ∧
          NewRouter.ServeHTTP v "GET" ("/jobs/".toList ++ s) =
            mux.Outcome.serve Handler.GetJobDetails [("jobId", s)]) ∧
      (∀ (v : mux.Version) (m : String) (p : List Char) (vars : List (String × List Char)),
        NewRouter.ServeHTTP v m p = mux.Outcome.serve Handler.GetPresetDetails vars →
          m = "GET" ∧ ∃ s, s ≠ [] ∧ '/' ∉ s ∧ p = "/presets/".toList ++ s ∧
            vars = [("presetName", s)]) ∧
      (∀ (v : mux.Version) (m : String) (p : List Char) (vars : List (String × List Char)),
        NewRouter.ServeHTTP v m p = mux.Outcome.serve Handler.GetJobDetails vars →
          m = "GET" ∧ ∃ s, s ≠ [] ∧ '/' ∉ s ∧ p = "/jobs/".toList ++ s ∧
            vars = [("jobId", s)]) := by
  refine ⟨?_, ?_, ?_⟩
  · intro v s hne hs h1 h2
    exact placeholder_binding_aux v s hne hs h1 h2
  · intro v m p vars hs
    obtain ⟨-, hcase⟩ := serve_cases v m p _ vars hs
    rcases hcase with ⟨-, h, -⟩ | ⟨-, h, -⟩ | ⟨-, h, -⟩ | ⟨-, h, -⟩ | ⟨hm, -, s, hne, hsl, hp, hv⟩ |
      ⟨-, h, -⟩ | ⟨-, h, -⟩ | ⟨-, h, -⟩
    any_goals cases h
    exact ⟨hm, s, hne, hsl, hp, hv⟩
  · intro v m p vars hs
    obtain ⟨-, hcase⟩ := serve_cases v m p _ vars hs
    rcases hcase with ⟨-, h, -⟩ | ⟨-, h, -⟩ | ⟨-, h, -⟩ | ⟨-, h, -⟩ | ⟨-, h, -⟩ |
      ⟨-, h, -⟩ | ⟨-, h, -⟩ | ⟨hm, -, s, hne, hsl, hp, hv⟩
    any_goals cases h
    exact ⟨hm, s, hne, hsl, hp, hv⟩

/-- Witness for the amended C9 at `s = "examplePreset"`, on mux 1.8.1. -/
theorem placeholder_binding_witness :
    NewRouter.ServeHTTP mux.Version.from_1_8_1 "GET" "/presets/examplePreset".toList =
        mux.Outcome.serve Handler.GetPresetDetails [("presetName", "examplePreset".toList)] ∧
      NewRouter.ServeHTTP mux.Version.from_1_8_1 "GET" "/jobs/examplePreset".toList =
        mux.Outcome.serve Handler.GetJobDetails [("jobId", "examplePreset".toList)] :=
  placeholder_binding.1 mux.Version.from_1_8_1 "examplePreset".toList (by decide) (by decide)
    (by decide) (by decide)

/-- C9 fails as stated: `..` is a non-empty string without `/`, and `GET /presets/..` is
answered by a redirect to `/` (likewise `GET /jobs/.` by one to `/jobs`), not by the
handler, on mux before 1.6.1, on 1.6.1 and on 1.8.1 alike. -/
theorem placeholder_binding_dotdot :
    ("..".toList ≠ [] ∧ '/' ∉ "..".toList) ∧
      (NewRouter.ServeHTTP mux.Version.before_1_6_1 "GET" ("/presets/".toList ++ "..".toList) =
          mux.Outcome.movedPermanently "/".toList ∧
        NewRouter.ServeHTTP mux.Version.from_1_6_1 "GET" ("/presets/".toList ++ "..".toList) =
          mux.Outcome.movedPermanently "/".toList ∧
        NewRouter.ServeHTTP mux.Version.from_1_8_1 "GET" ("/presets/".toList ++ "..".toList) =
          mux.Outcome.movedPermanently "/".toList) ∧
      NewRouter.ServeHTTP mux.Version.from_1_8_1 "GET" ("/presets/".toList ++ "..".toList) ≠
        mux.Outcome.serve Handler.GetPresetDetails [("presetName", "..".toList)] ∧
      NewRouter.ServeHTTP mux.Version.from_1_8_1 "GET" ("/jobs/".toList ++ ".".toList) =
        mux.Outcome.movedPermanently "/jobs".toList := by
  decide

theorem foldl_matchErr_false (v : mux.Version) (m : String) (p : List Char)
    (l : List mux.Route) (h : ∀ rt ∈ l, rt.matchErr v m p false = false) :
    l.foldl (fun e rt => rt.matchErr v m p e) false = false := by
  induction l with
  | nil => rfl
  | cons a as ih =>
    rw [List.foldl_cons, h a (List.mem_cons_self _ _)]
    exact ih (fun rt hrt => h rt (List.mem_cons_of_mem _ hrt))

/-- The oldest router keeps no record of a method mismatch. -/
theorem matchErr_before (r : mux.Router) (m : String) (p : List Char) :
    r.matchErr mux.Version.before_1_6_1 m p = false := by
  apply foldl_matchErr_false
  intro rt _
  simp only [mux.Route.matchErr]
  split <;> rfl

/-- A registered entry whose pattern does not match the path records nothing. -/
theorem registered_matchErr (v : mux.Version) (r : Route) (m : String) (p : List Char)
    (hp : ∀ m' : String, r.matches true m' p = false) :
    (registered (mux.NewRouter.StrictSlash true) r).matchErr v m p false = false := by
  have hR : (mux.NewRouter.StrictSlash true).strictSlash = true := rfl
  cases hre : mux.newRouteRegexp r.Pattern true with
  | none =>
    simp [registered, mux.Route.Handler, mux.Route.Path, mux.Route.Methods,
      mux.Router.NewRoute, hR, hre, mux.Route.matchErr]
  | some re =>
    have hpath : (re.Match p).isSome = false := by
      have := hp (mux.ToUpper r.Method)
      simpa [Route.matches, hre] using this
    simp only [registered, mux.Route.Handler, mux.Route.Path, mux.Route.Methods,
      mux.Router.NewRoute, hR, hre, mux.Route.matchErr, hpath]
    cases v <;> simp

theorem NewRouter_matchErr_false (v : mux.Version) (m : String) (p : List Char)
    (hp : ∀ r ∈ routes, ∀ m' : String, r.matches true m' p = false) :
    NewRouter.matchErr v m p = false := by
  rw [mux.Router.matchErr, NewRouter_routes]
  apply foldl_matchErr_false
  intro rt hrt
  obtain ⟨r, hr, rfl⟩ := List.mem_map.mp hrt
  exact registered_matchErr v r m p (hp r hr)

/-- From 1.6.1 up to 1.8.0 a recorded method mismatch stays recorded. -/
theorem matchErr_from_1_6_1_true (rt : mux.Route) (m : String) (p : List Char) :
    rt.matchErr mux.Version.from_1_6_1 m p true = true := by
  simp only [mux.Route.matchErr]
  split
  · rfl
  · split <;> rfl

theorem foldl_matchErr_true (m : String) (p : List Char) (l : List mux.Route) :
    l.foldl (fun e rt => rt.matchErr mux.Version.from_1_6_1 m p e) true = true := by
  induction l with
  | nil => rfl
  | cons a as ih => rw [List.foldl_cons, matchErr_from_1_6_1_true]; exact ih

theorem foldl_matchErr_of_mem (m : String) (p : List Char) (l : List mux.Route)
    (rt0 : mux.Route) (hmem : rt0 ∈ l)
    (h0 : rt0.matchErr mux.Version.from_1_6_1 m p false = true) :
    l.foldl (fun e rt => rt.matchErr mux.Version.from_1_6_1 m p e) false = true := by
  induction l with
  | nil => cases hmem
  | cons a as ih =>
    rw [List.foldl_cons]
    cases ha : a.matchErr mux.Version.from_1_6_1 m p false with
    | true => exact foldl_matchErr_true m p as
    | false =>
      rcases List.mem_cons.mp hmem with rfl | hmem'
      · rw [h0] at ha; cases ha
      · exact ih hmem'

/-- A registered entry whose pattern matches the path of a request of another method
records the mismatch (mux 1.6.1 up to 1.8.0). -/
theorem registered_matchErr_mismatch (r : Route) (m m' : String) (p : List Char)
    (hp : r.matches true m' p = true) (hm : r.matches true m p = false) :
    (registered (mux.NewRouter.StrictSlash true) r).matchErr mux.Version.from_1_6_1 m p false =
      true := by
  have hR : (mux.NewRouter.StrictSlash true).strictSlash = true := rfl
  cases hre : mux.newRouteRegexp r.Pattern true with
  | none => simp [Route.matches, hre] at hp
  | some re =>
    have hpath : (re.Match p).isSome = true := by
      simp only [Route.matches, hre, Bool.and_eq_true] at hp
      exact hp.2
    have hmeth : ¬ m = mux.ToUpper r.Method := by
      intro e
      simp [Route.matches, hre, hpath, e] at hm
    simp [registered, mux.Route.Handler, mux.Route.Path, mux.Route.Methods,
      mux.Router.NewRoute, hR, hre, mux.Route.matchErr, hpath, hmeth]

theorem NewRouter_matchErr_mismatch (m : String) (p : List Char)
    (hno : ∀ r ∈ routes, r.matches true m p = false)
    (hp : ∃ r ∈ routes, ∃ m' : String, r.matches true m' p = true) :
    NewRouter.matchErr mux.Version.from_1_6_1 m p = true := by
  obtain ⟨r, hr, m', hm'⟩ := hp
  rw [mux.Router.matchErr, NewRouter_routes]
  exact foldl_matchErr_of_mem m p _ _ (List.mem_map.mpr ⟨r, hr, rfl⟩)
    (registered_matchErr_mismatch r m m' p hm' (hno r hr))

/-- C7, as amended: when no entry of `routes` matches the request (under the router's
matching), no handler is invoked, on every mux release. A path that is not in canonical form
is answered by a redirect to its canonical form. A path in canonical form is answered
"not found" when no entry's pattern matches it under any method, and always by mux before
1.6.1; when an entry's pattern matches it under another method, later releases answer
"not found" or "method not allowed" (405), and the releases 1.6.1 up to 1.8.0 always the
latter. `GET /unknown` is "not found" on every release;
`DELETE /presets` and `PUT /jobs` are "not found" before 1.6.1 and 405 from 1.6.1 on;
`POST /` is "not found" before 1.6.1 and on 1.8.1, and 405 in between. -/
theorem unmatched_not_found :
    (∀ (v : mux.Version) (m : String) (p : List Char),
        (∀ r ∈ routes, r.matches true m p = false) →
          (∀ (h : Handler) (vars : List (String × List Char)),
              NewRouter.ServeHTTP v m p ≠ mux.Outcome.serve h vars) ∧
            (mux.cleanPath p ≠ p →
              NewRouter.ServeHTTP v m p = mux.Outcome.movedPermanently (mux.cleanPath p)) ∧
            (mux.cleanPath p = p →
              NewRouter.ServeHTTP v m p = mux.Outcome.notFound ∨
                NewRouter.ServeHTTP v m p = mux.Outcome.methodNotAllowed) ∧
            (mux.cleanPath p = p → v = mux.Version.before_1_6_1 →
              NewRouter.ServeHTTP v m p = mux.Outcome.notFound) ∧
            (mux.cleanPath p = p → (∀ r ∈ routes, ∀ m' : String, r.matches true m' p = false) →
              NewRouter.ServeHTTP v m p = mux.Outcome.notFound) ∧
            (mux.cleanPath p = p → v = mux.Version.from_1_6_1 →
              (∃ r ∈ routes, ∃ m' : String, r.matches true m' p = true) →
              NewRouter.ServeHTTP v m p = mux.Outcome.methodNotAllowed)) ∧
      (∀ v : mux.Version,
        NewRouter.ServeHTTP v "GET" "/unknown".toList = mux.Outcome.notFound) ∧
      (NewRouter.ServeHTTP mux.Version.before_1_6_1 "DELETE" "/presets".toList =
          mux.Outcome.notFound ∧
        NewRouter.ServeHTTP mux.Version.from_1_6_1 "DELETE" "/presets".toList =
          mux.Outcome.methodNotAllowed ∧
        NewRouter.ServeHTTP mux.Version.from_1_8_1 "DELETE" "/presets".toList =
          mux.Outcome.methodNotAllowed) ∧
      (NewRouter.ServeHTTP mux.Version.before_1_6_1 "PUT" "/jobs".toList =
          mux.Outcome.notFound ∧
        NewRouter.ServeHTTP mux.Version.from_1_6_1 "PUT" "/jobs".toList =
          mux.Outcome.methodNotAllowed ∧
        NewRouter.ServeHTTP mux.Version.from_1_8_1 "PUT" "/jobs".toList =
          mux.Outcome.methodNotAllowed) ∧
      (NewRouter.ServeHTTP mux.Version.before_1_6_1 "POST" "/".toList =
          mux.Outcome.notFound ∧
        NewRouter.ServeHTTP mux.Version.from_1_6_1 "POST" "/".toList =
          mux.Outcome.methodNotAllowed ∧
        NewRouter.ServeHTTP mux.Version.from_1_8_1 "POST" "/".toList =
          mux.Outcome.notFound) := by
  refine ⟨?_, fun v => by cases v <;> decide, by decide, by decide, by decide⟩
  intro v m p hno
  have hnone := (NewRouter_Match_none m p).mpr hno
  refine ⟨?_, ?_, ?_, ?_, ?_, ?_⟩
  · intro h vars hs
    obtain ⟨-, hm⟩ := (ServeHTTP_serve v m p h vars).mp hs
    rw [hnone] at hm
    cases hm
  · intro hc
    simp [mux.Router.ServeHTTP, hc]
  · intro hc
    simp only [mux.Router.ServeHTTP, hc, ne_eq, not_true_eq_false, if_false, hnone]
    cases NewRouter.matchErr v m p <;> simp
  · intro hc hv
    subst hv
    simp [mux.Router.ServeHTTP, hc, hnone, matchErr_before]
  · intro hc hp
    simp [mux.Router.ServeHTTP, hc, hnone, NewRouter_matchErr_false v m p hp]
  · intro hc hv hp
    subst hv
    simp [mux.Router.ServeHTTP, hc, hnone, NewRouter_matchErr_mismatch m p hno hp]

/-- Witness for the amended C7: `DELETE /presets` on mux before 1.6.1, on 1.6.1 and on
1.8.1, and `GET /unknown`, whose path no entry's pattern matches. -/
theorem unmatched_not_found_witness :
    (∀ r ∈ routes, r.matches true "DELETE" "/presets".toList = false) ∧
      NewRouter.ServeHTTP mux.Version.before_1_6_1 "DELETE" "/presets".toList =
        mux.Outcome.notFound ∧
      (NewRouter.ServeHTTP mux.Version.from_1_8_1 "DELETE" "/presets".toList =
          mux.Outcome.notFound ∨
        NewRouter.ServeHTTP mux.Version.from_1_8_1 "DELETE" "/presets".toList =
          mux.Outcome.methodNotAllowed) ∧
      NewRouter.ServeHTTP mux.Version.from_1_6_1 "DELETE" "/presets".toList =
        mux.Outcome.methodNotAllowed ∧
      NewRouter.ServeHTTP mux.Version.from_1_8_1 "GET" "/unknown".toList =
        mux.Outcome.notFound :=
  ⟨by decide,
    (unmatched_not_found.1 mux.Version.before_1_6_1 "DELETE" "/presets".toList
      (by decide)).2.2.2.1 (by decide) rfl,
    (unmatched_not_found.1 mux.Version.from_1_8_1 "DELETE" "/presets".toList
      (by decide)).2.2.1 (by decide),
    (unmatched_not_found.1 mux.Version.from_1_6_1 "DELETE" "/presets".toList
      (by decide)).2.2.2.2.2 (by decide) rfl
      ⟨⟨"POST", "/presets", Handler.CreatePreset⟩, by decide, "POST", by decide⟩,
    (unmatched_not_found.1 mux.Version.from_1_8_1 "GET" "/unknown".toList
      (by decide)).2.2.2.2.1 (by decide)
      (fun r hr m' => by
        have hpath : (match mux.newRouteRegexp r.Pattern true with
            | some re => (re.Match "/unknown".toList).isSome
            | none => false) = false := by
          revert r; decide
        simp only [Route.matches, hpath, Bool.and_false])⟩

/-- C7 fails as stated: `GET /a//b` matches no entry of `routes`, with or without the
optional trailing slash, and the router answers with a redirect to `/a/b`, not with
"not found", on mux before 1.6.1, on 1.6.1 and on 1.8.1 alike; and from mux 1.6.1 on
`DELETE /presets`, which matches no entry either, is answered "method not allowed". -/
theorem unmatched_redirected :
    (∀ ss : Bool, ∀ r ∈ routes, r.matches ss "GET" "/a//b".toList = false) ∧
      (NewRouter.ServeHTTP mux.Version.before_1_6_1 "GET" "/a//b".toList =
          mux.Outcome.movedPermanently "/a/b".toList ∧
        NewRouter.ServeHTTP mux.Version.from_1_6_1 "GET" "/a//b".toList =
          mux.Outcome.movedPermanently "/a/b".toList ∧
        NewRouter.ServeHTTP mux.Version.from_1_8_1 "GET" "/a//b".toList =
          mux.Outcome.movedPermanently "/a/b".toList) ∧
      NewRouter.ServeHTTP mux.Version.before_1_6_1 "GET" "/a//b".toList ≠
        mux.Outcome.notFound ∧
      (∀ ss : Bool, ∀ r ∈ routes, r.matches ss "DELETE" "/presets".toList = false) ∧
      NewRouter.ServeHTTP mux.Version.from_1_8_1 "DELETE" "/presets".toList ≠
        mux.Outcome.notFound := by
  decide

/-- C8, as amended: for every method `m` and path `p` that the router dispatches to a
handler, the path `p` with one trailing `/` appended, under the same method, is not
"not found" and does not invoke the handler either: the router answers it with a permanent
redirect (301) to `p`. This holds whichever mux release is linked. -/
theorem trailing_slash_redirect (v : mux.Version) (m : String) (p : List Char) (h : Handler)
    (vars : List (String × List Char))
    (hs : NewRouter.ServeHTTP v m p = mux.Outcome.serve h vars) :
    NewRouter.ServeHTTP v m (p ++ ['/']) = mux.Outcome.movedPermanently p := by
  obtain ⟨hc, hcase⟩ := serve_cases v m p h vars hs
  rcases hcase with ⟨rfl, -, rfl, -⟩ | ⟨rfl, -, rfl, -⟩ | ⟨rfl, -, rfl, -⟩ | ⟨rfl, -, rfl, -⟩ |
    ⟨rfl, -, s, hne, hsl, rfl, -⟩ | ⟨rfl, -, rfl, -⟩ | ⟨rfl, -, rfl, -⟩ |
    ⟨rfl, -, s, hne, hsl, rfl, -⟩
  · cases v <;> decide
  · cases v <;> decide
  · cases v <;> decide
  · cases v <;> decide
  · have h1 : s ≠ ['.'] := by
      rintro rfl
      exact absurd hc (by decide)
    have h2 : s ≠ ['.', '.'] := by
      rintro rfl
      exact absurd hc (by decide)
    exact redirect_var v ⟨"GET", "/presets/{presetName}", Handler.GetPresetDetails⟩ (by decide)
      "presets".toList "presetName" rfl (by decide) (by decide) (by decide) (by decide)
      (by decide) s hne hsl h1 h2
  · cases v <;> decide
  · cases v <;> decide
  · have h1 : s ≠ ['.'] := by
      rintro rfl
      exact absurd hc (by decide)
    have h2 : s ≠ ['.', '.'] := by
      rintro rfl
      exact absurd hc (by decide)
    exact redirect_var v ⟨"GET", "/jobs/{jobId}", Handler.GetJobDetails⟩ (by decide)
      "jobs".toList "jobId" rfl (by decide) (by decide) (by decide) (by decide)
      (by decide) s hne hsl h1 h2

/-- Witness for the amended C8 at `POST /jobs`, on mux 1.8.1. -/
theorem trailing_slash_redirect_witness :
    NewRouter.ServeHTTP mux.Version.from_1_8_1 "POST" "/jobs".toList =
        mux.Outcome.serve Handler.CreateJob [] ∧
      NewRouter.ServeHTTP mux.Version.from_1_8_1 "POST" ("/jobs".toList ++ ['/']) =
        mux.Outcome.movedPermanently "/jobs".toList :=
  ⟨by decide,
    trailing_slash_redirect mux.Version.from_1_8_1 "POST" "/jobs".toList Handler.CreateJob []
      (by decide)⟩

/-- C8 fails as stated: `GET /presets` is dispatched to `ListPresets`, while `GET /presets/`
is not: it is answered by a redirect to `/presets`, on mux before 1.6.1, on 1.6.1 and on
1.8.1 alike; the same holds for `/` and `//`. -/
theorem trailing_slash_not_served :
    (NewRouter.ServeHTTP mux.Version.before_1_6_1 "GET" "/presets".toList =
          mux.Outcome.serve Handler.ListPresets [] ∧
        NewRouter.ServeHTTP mux.Version.before_1_6_1 "GET" "/presets/".toList =
          mux.Outcome.movedPermanently "/presets".toList ∧
        NewRouter.ServeHTTP mux.Version.before_1_6_1 "GET" "/presets/".toList ≠
          mux.Outcome.serve Handler.ListPresets []) ∧
      (NewRouter.ServeHTTP mux.Version.from_1_6_1 "GET" "/presets".toList =
          mux.Outcome.serve Handler.ListPresets [] ∧
        NewRouter.ServeHTTP mux.Version.from_1_6_1 "GET" "/presets/".toList =
          mux.Outcome.movedPermanently "/presets".toList ∧
        NewRouter.ServeHTTP mux.Version.from_1_6_1 "GET" "/presets/".toList ≠
          mux.Outcome.serve Handler.ListPresets []) ∧
      (NewRouter.ServeHTTP mux.Version.from_1_8_1 "GET" "/presets".toList =
          mux.Outcome.serve Handler.ListPresets [] ∧
        NewRouter.ServeHTTP mux.Version.from_1_8_1 "GET" "/presets/".toList =
          mux.Outcome.movedPermanently "/presets".toList ∧
        NewRouter.ServeHTTP mux.Version.from_1_8_1 "GET" "/presets/".toList ≠
          mux.Outcome.serve Handler.ListPresets []) ∧
      NewRouter.ServeHTTP mux.Version.from_1_8_1 "GET" "/".toList =
        mux.Outcome.serve Handler.Index [] ∧
      NewRouter.ServeHTTP mux.Version.from_1_8_1 "GET" "//".toList =
        mux.Outcome.movedPermanently "/".toList := by
  decide

theorem RetrievePreset_StorePreset (db : Storage) (p : Preset) :
    (db.StorePreset p).RetrievePreset p.Name = some p := by
  simp only [Storage.RetrievePreset, Storage.StorePreset, List.find?_append]
  have hnone : (db.presets.filter (fun q => decide (q.Name ≠ p.Name))).find?
      (fun q => decide (q.Name = p.Name)) = none := by
    rw [List.find?_eq_none]
    intro q hq
    have := (List.mem_filter.mp hq).2
    simpa using this
  rw [hnone]
  simp [List.find?]

theorem ServeHTTP_of_serve (v : mux.Version) (env : Env) (db : Storage) (m : String)
    (p : List Char) (body : String) (h : Handler) (vars : List (String × List Char))
    (hs : NewRouter.ServeHTTP v m p = mux.Outcome.serve h vars) :
    ServeHTTP env v db m p body = h.run env db vars body := by
  simp only [ServeHTTP, hs]

theorem HTTPError_body_field (w : Response) (c : Nat) (msg err : String) :
    hasErrorField (HTTPError w c msg err).Body :=
  ⟨msg ++ ": " ++ err, by simp [HTTPError, String.append_assoc]⟩

/-- C4: `HTTPError(w, c, msg, err)` sets the status to `c` and the body to exactly the
single-field object whose `error` field is `<msg>: <err>`; for `error here` and
`database broken` with status 200 the body is the one the test expects. -/
theorem HTTPError_envelope (w : Response) (c : Nat) (msg err : String) :
    (HTTPError w c msg err).Code = c ∧
      (HTTPError w c msg err).Body = "\x7b\"error\": \"" ++ msg ++ ": " ++ err ++ "\"\x7d" ∧
      hasErrorField (HTTPError w c msg err).Body ∧
      (HTTPError w c msg err).ContentType = w.ContentType ∧
      (HTTPError {} 200 "error here" "database broken").Code = 200 ∧
      (HTTPError {} 200 "error here" "database broken").Body =
        "\x7b\"error\": \"error here: database broken\"\x7d" := by
  exact ⟨rfl, rfl, HTTPError_body_field w c msg err, rfl, rfl, by decide⟩

/-- C3: a `POST /jobs` request whose body names a preset that is not in storage is answered
with status 400 and the body whose `error` field is
`retrieving preset: preset not found`, and the storage (so the stored jobs) is unchanged,
whichever mux release is linked. -/
theorem CreateJob_unknown_preset (v : mux.Version) (env : Env) (db : Storage) (body : String)
    (input : JobInput)
    (hdec : env.decodeJobInput body = Except.ok input)
    (habs : db.RetrievePreset input.Preset = none) :
    (ServeHTTP env v db "POST" "/jobs".toList body).1 =
        { Code := 400, ContentType := jsonContentType,
          Body := "\x7b\"error\": \"retrieving preset: preset not found\"\x7d" } ∧
      (ServeHTTP env v db "POST" "/jobs".toList body).2 = db ∧
      (ServeHTTP env v db "POST" "/jobs".toList body).2.GetJobs = db.GetJobs := by
  have hs : NewRouter.ServeHTTP v "POST" "/jobs".toList =
      mux.Outcome.serve Handler.CreateJob [] := by
    cases v <;> decide
  rw [ServeHTTP_of_serve v env db _ _ body _ _ hs]
  simp only [Handler.run, CreateJob, hdec, habs]
  refine ⟨?_, ?_, ?_⟩ <;> trivial

/-- Witness for C3: the request of the test, on an empty storage, with mux 1.8.1. -/
theorem CreateJob_unknown_preset_witness :
    (ServeHTTP stubEnv mux.Version.from_1_8_1 {} "POST" "/jobs".toList "presetName").1 =
        { Code := 400, ContentType := jsonContentType,
          Body := "\x7b\"error\": \"retrieving preset: preset not found\"\x7d" } ∧
      (ServeHTTP stubEnv mux.Version.from_1_8_1 {} "POST" "/jobs".toList "presetName").2 = {} ∧
      (ServeHTTP stubEnv mux.Version.from_1_8_1 {} "POST" "/jobs".toList
          "presetName").2.GetJobs = Storage.GetJobs {} :=
  CreateJob_unknown_preset mux.Version.from_1_8_1 stubEnv {} "presetName"
    { Source := "http://flv.io/src.mp4", Destination := "s3://l@p:google.com",
      Preset := "presetName" } rfl (by decide)

/-- C5: when the body does not decode, both `POST /presets` and `PUT /presets` answer with
status 400 and a body carrying an `error` field, whatever is stored, and store nothing,
whichever mux release is linked. -/
theorem malformed_preset_body (v : mux.Version) (env : Env) (db : Storage) (body e : String)
    (hdec : env.decodePreset body = Except.error e) :
    ((ServeHTTP env v db "POST" "/presets".toList body).1.Code = 400 ∧
        hasErrorField (ServeHTTP env v db "POST" "/presets".toList body).1.Body ∧
        (ServeHTTP env v db "POST" "/presets".toList body).2 = db) ∧
      ((ServeHTTP env v db "PUT" "/presets".toList body).1.Code = 400 ∧
        hasErrorField (ServeHTTP env v db "PUT" "/presets".toList body).1.Body ∧
        (ServeHTTP env v db "PUT" "/presets".toList body).2 = db) := by
  have hpost : NewRouter.ServeHTTP v "POST" "/presets".toList =
      mux.Outcome.serve Handler.CreatePreset [] := by cases v <;> decide
  have hput : NewRouter.ServeHTTP v "PUT" "/presets".toList =
      mux.Outcome.serve Handler.UpdatePreset [] := by cases v <;> decide
  rw [ServeHTTP_of_serve v env db _ _ body _ _ hpost,
    ServeHTTP_of_serve v env db _ _ body _ _ hput]
  simp only [Handler.run, CreatePreset, UpdatePreset, hdec]
  refine ⟨⟨?_, HTTPError_body_field _ _ _ _, ?_⟩, ⟨?_, HTTPError_body_field _ _ _ _, ?_⟩⟩ <;>
    trivial

/-- Witness for C5: the malformed body of the test, with `examplePreset` already stored, on
mux 1.8.1. -/
theorem malformed_preset_body_witness :
    ((ServeHTTP stubEnv mux.Version.from_1_8_1 (Storage.StorePreset {} examplePreset) "POST"
          "/presets".toList "\x7b\"neime: \"badPreset\x7d\x7d").1.Code = 400 ∧
        hasErrorField (ServeHTTP stubEnv mux.Version.from_1_8_1
          (Storage.StorePreset {} examplePreset) "POST"
          "/presets".toList "\x7b\"neime: \"badPreset\x7d\x7d").1.Body ∧
        (ServeHTTP stubEnv mux.Version.from_1_8_1 (Storage.StorePreset {} examplePreset) "POST"
          "/presets".toList "\x7b\"neime: \"badPreset\x7d\x7d").2 =
            Storage.StorePreset {} examplePreset) ∧
      ((ServeHTTP stubEnv mux.Version.from_1_8_1 (Storage.StorePreset {} examplePreset) "PUT"
          "/presets".toList "\x7b\"neime: \"badPreset\x7d\x7d").1.Code = 400 ∧
        hasErrorField (ServeHTTP stubEnv mux.Version.from_1_8_1
          (Storage.StorePreset {} examplePreset) "PUT"
          "/presets".toList "\x7b\"neime: \"badPreset\x7d\x7d").1.Body ∧
        (ServeHTTP stubEnv mux.Version.from_1_8_1 (Storage.StorePreset {} examplePreset) "PUT"
          "/presets".toList "\x7b\"neime: \"badPreset\x7d\x7d").2 =
            Storage.StorePreset {} examplePreset) :=
  malformed_preset_body mux.Version.from_1_8_1 stubEnv (Storage.StorePreset {} examplePreset)
    "\x7b\"neime: \"badPreset\x7d\x7d" "unexpected end of JSON input" rfl

/-- C6, as amended: for every preset whose name is one ordinary path element (non-empty,
without `/`, neither `.` nor `..`) and whose JSON text decodes back to it, storing it, by
`POST /presets` with its JSON text or by `StorePreset`, and then requesting
`GET /presets/<name>` gives status 200 and a body equal to the JSON text of the preset,
whichever mux release is linked. -/
theorem preset_round_trip (v : mux.Version) (env : Env) (db : Storage) (p : Preset)
    (hrt : env.decodePreset (env.encodePreset p) = Except.ok p)
    (hname : routableName p.Name) :
    (ServeHTTP env v db "POST" "/presets".toList (env.encodePreset p)).1.Code = 200 ∧
      (ServeHTTP env v db "POST" "/presets".toList (env.encodePreset p)).2 =
        db.StorePreset p ∧
      (ServeHTTP env v (ServeHTTP env v db "POST" "/presets".toList (env.encodePreset p)).2
          "GET" ("/presets/".toList ++ p.Name.toList) "").1 =
        { Code := 200, ContentType := jsonContentType, Body := env.encodePreset p } ∧
      (ServeHTTP env v (db.StorePreset p) "GET" ("/presets/".toList ++ p.Name.toList) "").1 =
        { Code := 200, ContentType := jsonContentType, Body := env.encodePreset p } := by
  obtain ⟨hne, hsl, h1, h2⟩ := hname
  have hpost : NewRouter.ServeHTTP v "POST" "/presets".toList =
      mux.Outcome.serve Handler.CreatePreset [] := by cases v <;> decide
  have hget := (placeholder_binding_aux v p.Name.toList hne hsl h1 h2).1
  have hstore : (ServeHTTP env v db "POST" "/presets".toList (env.encodePreset p)) =
      ({ Code := 200, ContentType := jsonContentType, Body := env.encodePreset p },
        db.StorePreset p) := by
    rw [ServeHTTP_of_serve v env db _ _ _ _ _ hpost]
    simp only [Handler.run, CreatePreset, hrt]
  have hread : (ServeHTTP env v (db.StorePreset p) "GET"
      ("/presets/".toList ++ p.Name.toList) "").1 =
      { Code := 200, ContentType := jsonContentType, Body := env.encodePreset p } := by
    rw [ServeHTTP_of_serve v env _ _ _ _ _ _ hget]
    have hn : String.mk p.Name.toList = p.Name := rfl
    simp only [Handler.run, GetPresetDetails, List.lookup, beq_self_eq_true, Option.getD_some,
      hn, RetrievePreset_StorePreset]
  rw [hstore]
  exact ⟨rfl, rfl, hread, hread⟩

/-- Witness for the amended C6: the preset of the test, on mux 1.8.1. -/
theorem preset_round_trip_witness :
    (ServeHTTP stubEnv mux.Version.from_1_8_1 {} "POST" "/presets".toList
          (stubEnv.encodePreset examplePreset)).1.Code = 200 ∧
      (ServeHTTP stubEnv mux.Version.from_1_8_1 {} "POST" "/presets".toList
          (stubEnv.encodePreset examplePreset)).2 = Storage.StorePreset {} examplePreset ∧
      (ServeHTTP stubEnv mux.Version.from_1_8_1
          (ServeHTTP stubEnv mux.Version.from_1_8_1 {} "POST" "/presets".toList
            (stubEnv.encodePreset examplePreset)).2
          "GET" ("/presets/".toList ++ examplePreset.Name.toList) "").1 =
        { Code := 200, ContentType := jsonContentType,
          Body := stubEnv.encodePreset examplePreset } ∧
      (ServeHTTP stubEnv mux.Version.from_1_8_1 (Storage.StorePreset {} examplePreset) "GET"
          ("/presets/".toList ++ examplePreset.Name.toList) "").1 =
        { Code := 200, ContentType := jsonContentType,
          Body := stubEnv.encodePreset examplePreset } :=
  preset_round_trip mux.Version.from_1_8_1 stubEnv {} examplePreset rfl
    ⟨by decide, by decide, by decide, by decide⟩

/-- C6 fails as stated: a preset named `a/b` has a non-empty name, and after it is stored
`GET /presets/a/b` is answered "not found" (404) by the router, on mux before 1.6.1, on
1.6.1 and on 1.8.1 alike: no entry of the table matches a path with two segments after
`/presets`. -/
theorem preset_round_trip_slash :
    (Preset.Name { Name := "a/b" } ≠ "") ∧
      (Storage.StorePreset {} { Name := "a/b" }).RetrievePreset "a/b" =
        some { Name := "a/b" } ∧
      (NewRouter.ServeHTTP mux.Version.before_1_6_1 "GET" ("/presets/".toList ++ "a/b".toList) =
          mux.Outcome.notFound ∧
        NewRouter.ServeHTTP mux.Version.from_1_6_1 "GET" ("/presets/".toList ++ "a/b".toList) =
          mux.Outcome.notFound ∧
        NewRouter.ServeHTTP mux.Version.from_1_8_1 "GET" ("/presets/".toList ++ "a/b".toList) =
          mux.Outcome.notFound) ∧
      (ServeHTTP stubEnv mux.Version.before_1_6_1 (Storage.StorePreset {} { Name := "a/b" })
          "GET" ("/presets/".toList ++ "a/b".toList) "").1.Code = 404 ∧
      (ServeHTTP stubEnv mux.Version.from_1_8_1 (Storage.StorePreset {} { Name := "a/b" })
          "GET" ("/presets/".toList ++ "a/b".toList) "").1.Code = 404 := by
  decide

end Snickers
